import Mathlib

/-!
# Turn engine of the battleship dashboard (`src/components/DashBoard.js`)

Shallow embedding of the state-transition code of the `DashBoard` component:
`updateCell`, `updateShip`, `ply`, `reset`, `handleAction`, `getCells` and
`getScroes`.

Modelling conventions.

* JavaScript numbers that the engine handles (coordinates, ship indices, sizes,
  lives) are integers; they are embedded as `Int`.
* `a[i]` on an array is `jsGet a i`: `undefined` (here `none`) for a negative
  index or an index past the end.
* Reading a property of `undefined` raises a `TypeError`; functions that can
  do so return `Except JsError _`.
* An updater passed to `setState` that returns `undefined` leaves the
  component state as it is; one that returns an object has its keys merged
  into the state.
* `genRandomField` lives in `helpers/field`, which is not part of the
  sources at hand.  Its result is a parameter (`fresh`) of `reset` and
  `handleAction`.
-/

namespace DashBoard

/-! ## Data model -/

/-- Modelled from the spec: the four `CELL_STATE` constants imported from
`helpers/field` (the module is not among the sources).  The code only compares
them with `===`, so they are embedded as a closed enumeration. -/
inductive CellState where
  | EMPTY
  | SHIP
  | MISS
  | HIT
  deriving DecidableEq, Repr

/-- The `GAME_STATE` constants: `PLAYER_1_TURN` is `'player-1'`, `OVER` is `'over'`. -/
inductive GameState where
  | PLAYER_1_TURN
  | OVER
  deriving DecidableEq, Repr

/-- A cell object `{x, y, state, ship}`; `ship` is an index into the ship
list, `-1` when no ship is referenced. -/
structure Cell where
  x : Int
  y : Int
  state : CellState
  ship : Int
  deriving DecidableEq, Repr

/-- A ship object `{type, size, life}`. -/
structure Ship where
  type : String
  size : Int
  life : Int
  deriving DecidableEq, Repr

/-- A field is an array of rows, each row an array of cells. -/
abbrev Field := List (List Cell)

/-- The player state `{field, ships}` stored under the key `'player-1'`. -/
structure PlayerState where
  field : Field
  ships : List Ship
  deriving DecidableEq, Repr

/-- The component state `{size, gameState, 'player-1': {field, ships}}`. -/
structure State where
  size : Int
  gameState : GameState
  player : PlayerState
  deriving DecidableEq, Repr

/-- The partial state object `{gameState, 'player-1': player}` that `reset`
and the `setState` updater return. -/
structure Update where
  gameState : GameState
  player : PlayerState
  deriving DecidableEq, Repr

/-- Run-time failure of the JavaScript code. -/
inductive JsError where
  | typeError
  deriving DecidableEq, Repr

/-- `FIELD_SIZE`. -/
def FIELD_SIZE : Int := 10

/-! ## Array access -/

/-- JavaScript `a[i]` for an integer `i`: `none` stands for `undefined`. -/
def jsGet {α : Type} (a : List α) (i : Int) : Option α :=
  if 0 ≤ i then a[i.toNat]? else none

/-- The lookup `field[x][y]` when it does not raise, `none` when the row or
the cell is `undefined`. -/
def cellAt (field : Field) (x y : Int) : Option Cell :=
  (jsGet field x).bind (fun row => jsGet row y)

/-! ## The operations of `DashBoard.js` -/

/-- `updateCell(field, x, y, {state})`: the guard returns the field itself when
the row or the cell is missing; otherwise row `x` is replaced by a copy in
which the cell at index `y` has the new state.  (Arrays and objects are always
truthy, so `!field`, `!field[x]`, `!field[x][y]` only test for `undefined`.) -/
def updateCell (field : Field) (x y : Int) (state : CellState) : Field :=
  match jsGet field x with
  | none => field
  | some row =>
    match jsGet row y with
    | none => field
    | some _ =>
      field.set x.toNat
        (row.mapIdx (fun i c => if (i : Int) = y then { c with state := state } else c))

/-- `updateShip(ships, index, {life})`. -/
def updateShip (ships : List Ship) (index : Int) (life : Int) : List Ship :=
  match jsGet ships index with
  | none => ships
  | some s => ships.set index.toNat { s with life := life }

/-- `ply({field, ships}, cell)`: `none` is the `undefined` returned when the
cell is already struck; `ships[cell.ship].life` raises when the cell refers to
a ship that is not in the list. -/
def ply (p : PlayerState) (cell : Cell) : Except JsError (Option Update) :=
  if cell.state = CellState.EMPTY ∨ cell.state = CellState.SHIP then
    let newField := updateCell p.field cell.x cell.y
      (if cell.state = CellState.SHIP then CellState.HIT else CellState.MISS)
    let newShips : Except JsError (List Ship) :=
      if cell.ship ≠ -1 then
        match jsGet p.ships cell.ship with
        | none => Except.error JsError.typeError
        | some s => Except.ok (updateShip p.ships cell.ship (s.life - 1))
      else Except.ok p.ships
    match newShips with
    | Except.error e => Except.error e
    | Except.ok newShips =>
      Except.ok (some
        { gameState :=
            if newShips.all (fun ship => ship.life == 0) then GameState.OVER
            else GameState.PLAYER_1_TURN
          player := { field := newField, ships := newShips } })
  else Except.ok none

/-- `reset()`; `fresh` is the value of `genRandomField(FIELD_SIZE, shipsLayout)`. -/
def reset (fresh : PlayerState) : Update :=
  { gameState := GameState.PLAYER_1_TURN, player := fresh }

/-- The updater that `handleAction` passes to `setState`, applied to the
current state and the action data `{x, y}`.  The `default:` branch of the
switch is not reachable with the two `GAME_STATE` constants. -/
def updater (fresh : PlayerState) (state : State) (x y : Int) :
    Except JsError (Option Update) :=
  match state.gameState with
  | GameState.OVER => Except.ok (some (reset fresh))
  | GameState.PLAYER_1_TURN =>
    match jsGet state.player.field x with
    | none => Except.error JsError.typeError
    | some row =>
      match jsGet row y with
      | none => Except.error JsError.typeError
      | some cell => ply state.player cell

/-- The merge done by `setState`. -/
def merge (state : State) : Option Update → State
  | none => state
  | some u => { state with gameState := u.gameState, player := u.player }

/-- `handleAction({x, y})`: the state after `setState` has run the updater, or
the error the updater raised. -/
def handleAction (fresh : PlayerState) (state : State) (x y : Int) :
    Except JsError State :=
  match updater fresh state x y with
  | Except.error e => Except.error e
  | Except.ok u => Except.ok (merge state u)

/-- The test of the filter in `getCells`. -/
def struck (cell : Cell) : Bool :=
  cell.state == CellState.MISS || cell.state == CellState.HIT

/-- `getCells(field)`: `[].concat(...field).filter(...)`. -/
def getCells (field : Field) : List Cell :=
  field.flatten.filter struck

/-- An entry `{type, size, count}` of the ship manifest (the `image` of an
entry is an asset for the renderer and is left out). -/
structure ShipKind where
  type : String
  size : Int
  count : Int
  deriving DecidableEq, Repr

/-- `shipsLayout`. -/
def shipsLayout : List ShipKind :=
  [⟨"aircraft", 5, 1⟩, ⟨"battleship", 4, 2⟩, ⟨"cruiser", 3, 3⟩,
   ⟨"submarine", 2, 4⟩, ⟨"carrier", 1, 5⟩]

/-- `getScroes(state)`: the method reads `this.state` (here `self`) and does not
use its parameter. -/
def getScroes (self : State) (_state : State) : Int × Int :=
  (self.player.ships.foldl (fun acc ship => acc + (ship.size - ship.life)) 0, 0)

/-! ## Vocabulary of the properties -/

deriving instance DecidableEq for Except

/-- The test of `ply`: the cell is `EMPTY` or `SHIP`, that is, not struck yet. -/
def unstruck (cell : Cell) : Bool :=
  cell.state == CellState.EMPTY || cell.state == CellState.SHIP

/-- An unstruck cell that refers to the ship with index `i`. -/
def hullOf (i : Nat) (cell : Cell) : Bool :=
  unstruck cell && cell.ship == (i : Int)

/-- An unstruck cell that refers to some ship (`cell.ship !== -1`). -/
def armed (cell : Cell) : Bool :=
  unstruck cell && cell.ship != -1

/-- Number of cells of the field that satisfy `p`. -/
def countCells (p : Cell → Bool) (field : Field) : Nat :=
  field.flatten.countP p

/-- Every cell stores its own position: `field[x][y]` has `x` and `y` as its
coordinates. -/
def OwnCoords (field : Field) : Prop :=
  ∀ (x y : Int) (c : Cell), cellAt field x y = some c → c.x = x ∧ c.y = y

/-- Executable test of `OwnCoords`. -/
def ownCoordsCheck (field : Field) : Bool :=
  field.enum.all (fun r => r.2.enum.all (fun q => q.2.x == (r.1 : Int) && q.2.y == (q.1 : Int)))

/-- The field is a `size × size` grid. -/
def SquareField (size : Int) (field : Field) : Prop :=
  (field.length : Int) = size ∧ ∀ row ∈ field, (row.length : Int) = size

instance (size : Int) (field : Field) : Decidable (SquareField size field) := by
  unfold SquareField
  infer_instance

/-- One action in a run of the game: the coordinates of the strike and the
layout `genRandomField` hands out should this action restart the game. -/
structure Strike where
  x : Int
  y : Int
  fresh : PlayerState
  deriving DecidableEq, Repr

/-- The actions of a list dispatched one after the other through `handleAction`. -/
def run (state : State) : List Strike → Except JsError State
  | [] => Except.ok state
  | a :: rest =>
    match handleAction a.fresh state a.x a.y with
    | Except.error e => Except.error e
    | Except.ok next => run next rest

/-- Follows the words of the spec for `visibleStrikes`: in row-major order,
every cell whose state is `MISS` or `HIT`. -/
def visibleStrikes : Field → List Cell
  | [] => []
  | row :: rest =>
    row.filter (fun c => decide (c.state = CellState.MISS ∨ c.state = CellState.HIT))
      ++ visibleStrikes rest

/-- Follows the words of the spec for `score`: the sum over all ships of
`size - life`. -/
def score (ships : List Ship) : Int :=
  (ships.map (fun ship => ship.size - ship.life)).sum

/-- The cell is in state `HIT`. -/
def isHit (cell : Cell) : Bool :=
  cell.state == CellState.HIT

/-- The cell is in state `SHIP`. -/
def isShip (cell : Cell) : Bool :=
  cell.state == CellState.SHIP

/-- The cell carries the index `i` of a ship. -/
def ofShip (i : Nat) (cell : Cell) : Bool :=
  cell.ship == (i : Int)

/-- The cell carries the index `i` and is in state `SHIP`. -/
def afloatOf (i : Nat) (cell : Cell) : Bool :=
  cell.ship == (i : Int) && cell.state == CellState.SHIP

/-- The cell carries the index `i` and is in state `HIT`. -/
def hitOf (i : Nat) (cell : Cell) : Bool :=
  cell.ship == (i : Int) && cell.state == CellState.HIT

/-- The state the strike gives to the cell it marks: `HIT` when the cell that
was looked up is `SHIP`, `MISS` otherwise. -/
def mark (cell : Cell) : CellState :=
  if cell.state = CellState.SHIP then CellState.HIT else CellState.MISS

/-- Number of strikes of the list that change the state of the running game,
counted up to the first strike that finds the game over (that strike restarts
it).  A strike that raises leaves the state as it is. -/
def changes (state : State) : List Strike → Nat
  | [] => 0
  | a :: rest =>
    match state.gameState with
    | GameState.OVER => 0
    | GameState.PLAYER_1_TURN =>
      match handleAction a.fresh state a.x a.y with
      | Except.error _ => changes state rest
      | Except.ok next => (if next = state then 0 else 1) + changes next rest

/-! ## Layouts and invariants -/

/-- Modelled from the spec: the contract of the Field Generator
(`genRandomField` of `helpers/field`, which is not among the sources) on the
layout it returns.  The cells lie where their coordinates say (rows indexed by
`x`, columns by `y`); a cell is either `SHIP` with the index of a ship of the
list, or `EMPTY` with the sentinel -1; every ship's life is its size; the
number of `SHIP` cells is the sum of the sizes of the ships (the sum of
`size × count` over the manifest, each manifest entry standing for `count`
ships of its size).  That no two ships overlap is built into the data model: a
cell has a single `ship` field. -/
def GeneratorContract (p : PlayerState) : Prop :=
  OwnCoords p.field ∧
  (∀ c ∈ p.field.flatten,
    (c.state = CellState.SHIP ∧ 0 ≤ c.ship ∧ c.ship < p.ships.length) ∨
    (c.state = CellState.EMPTY ∧ c.ship = -1)) ∧
  (∀ sh ∈ p.ships, sh.life = sh.size) ∧
  (countCells (fun c => c.state == CellState.SHIP) p.field : Int) =
    (p.ships.map Ship.size).sum

/-- The layout has a ship of positive size (the manifest `shipsLayout` is not
empty and its sizes are positive). -/
def HasShip (p : PlayerState) : Prop :=
  ∃ sh ∈ p.ships, 0 < sh.size

/-- Each ship of the layout has its life equal to its size and its index is
carried by exactly `size` unstruck cells. -/
def HullsMatch (p : PlayerState) : Prop :=
  ∀ (i : Nat) (sh : Ship), p.ships[i]? = some sh →
    sh.life = sh.size ∧ (countCells (hullOf i) p.field : Int) = sh.size

/-- Invariant of the games started on layouts that meet `GeneratorContract`:
cells store their coordinates, unstruck cells refer to no ship or to a ship of
the list, the lives add up to the number of unstruck cells that refer to a
ship, and the game phase tells whether all lives are 0. -/
def Balanced (s : State) : Prop :=
  OwnCoords s.player.field ∧
  (∀ (x y : Int) (c : Cell), cellAt s.player.field x y = some c → unstruck c = true →
    c.ship = -1 ∨ (0 ≤ c.ship ∧ c.ship < s.player.ships.length)) ∧
  (countCells armed s.player.field : Int) = (s.player.ships.map Ship.life).sum ∧
  (s.gameState = GameState.PLAYER_1_TURN → ∃ sh ∈ s.player.ships, sh.life ≠ 0) ∧
  (s.gameState = GameState.OVER → ∀ sh ∈ s.player.ships, sh.life = 0)

/-- Invariant of the games started on layouts that meet `HullsMatch` and store
the coordinates of their cells: the life of each ship is the number of
unstruck cells that carry its index, and is at most its size. -/
def HullsTracked (p : PlayerState) : Prop :=
  OwnCoords p.field ∧
  ∀ (i : Nat) (sh : Ship), p.ships[i]? = some sh →
    (countCells (hullOf i) p.field : Int) = sh.life ∧ sh.life ≤ sh.size

/-- The step from `s` to `s'` brings the last ship with life above 0 down to
life 0: some ship has a positive life in `s` and life 0 in `s'`, and no other
ship has a positive life in `s`. -/
def LastShipSunk (s s' : State) : Prop :=
  ∃ (i : Nat) (sh sh' : Ship),
    s.player.ships[i]? = some sh ∧ s'.player.ships[i]? = some sh' ∧
    0 < sh.life ∧ sh'.life = 0 ∧
    ∀ (j : Nat) (t : Ship), j ≠ i → s.player.ships[j]? = some t → ¬ 0 < t.life

/-- The cells of the field are labelled: a `SHIP` cell carries the index of a
ship of the list and an `EMPTY` cell carries -1. -/
def Labelled (p : PlayerState) : Prop :=
  ∀ (x y : Int) (c : Cell), cellAt p.field x y = some c →
    (c.state = CellState.SHIP → 0 ≤ c.ship ∧ c.ship < p.ships.length) ∧
    (c.state = CellState.EMPTY → c.ship = -1)

/-- The test of `Labelled` on the list of all cells. -/
def CellsLabelled (p : PlayerState) : Prop :=
  ∀ c ∈ p.field.flatten,
    (c.state = CellState.SHIP → 0 ≤ c.ship ∧ c.ship < p.ships.length) ∧
    (c.state = CellState.EMPTY → c.ship = -1)

instance (p : PlayerState) : Decidable (CellsLabelled p) := by
  unfold CellsLabelled
  infer_instance

/-- Invariant of the games started on layouts that meet `GeneratorContract`:
cells store their coordinates and are labelled, and the score is the number of
`HIT` cells. -/
def Scored (p : PlayerState) : Prop :=
  OwnCoords p.field ∧ Labelled p ∧ score p.ships = (countCells isHit p.field : Int)

/-- The starting layouts of the bookkeeping claim: a cell either has `ship`
-1 and state `EMPTY`, or has state `SHIP` and the index of a ship of the list;
each ship has its life equal to its size and equal to the number of cells that
carry its index. -/
def Tidy (p : PlayerState) : Prop :=
  (∀ c ∈ p.field.flatten,
    (c.ship = -1 ∧ c.state = CellState.EMPTY) ∨
    (c.state = CellState.SHIP ∧ 0 ≤ c.ship ∧ c.ship < p.ships.length)) ∧
  ∀ (i : Nat) (sh : Ship), p.ships[i]? = some sh →
    sh.life = sh.size ∧ (countCells (ofShip i) p.field : Int) = sh.size

/-- The bookkeeping of the lives: the life of each ship is the number of cells
with its index in state `SHIP`, and `size - life` the number of cells with its
index in state `HIT`. -/
def Tallied (p : PlayerState) : Prop :=
  ∀ (i : Nat) (sh : Ship), p.ships[i]? = some sh →
    sh.life = (countCells (afloatOf i) p.field : Int) ∧
    sh.size - sh.life = (countCells (hitOf i) p.field : Int)

/-- Invariant behind `Tallied`: cells store their coordinates and are labelled,
and the lives are tallied. -/
def TalliedInv (p : PlayerState) : Prop :=
  OwnCoords p.field ∧ Labelled p ∧ Tallied p

/-- The well-formed starting layouts of the game-over claim, as the claim lists
them: the ship list is not empty, each ship has its life equal to its size and
equal to the number of `SHIP` cells with its index, and the cells store their
own coordinates. -/
def ShipShape (p : PlayerState) : Prop :=
  p.ships ≠ [] ∧
  (∀ (i : Nat) (sh : Ship), p.ships[i]? = some sh →
    sh.life = sh.size ∧ (countCells (afloatOf i) p.field : Int) = sh.size) ∧
  OwnCoords p.field

/-- Invariant of the games started on layouts that meet `ShipShape` and
`CellsLabelled`: cells store their coordinates and are labelled, and the life
of each ship is the number of `SHIP` cells with its index. -/
def Afloat (p : PlayerState) : Prop :=
  OwnCoords p.field ∧ Labelled p ∧
  ∀ (i : Nat) (sh : Ship), p.ships[i]? = some sh →
    sh.life = (countCells (afloatOf i) p.field : Int)

/-! ## Concrete states used as test inputs -/

/-- A one-cell layout with a single ship of size 1. -/
def freshOne : PlayerState :=
  { field := [[⟨0, 0, CellState.SHIP, 0⟩]], ships := [⟨"carrier", 1, 1⟩] }

/-- A finished game on the one-cell layout: the cell is `HIT`, the ship is sunk. -/
def overOne : State :=
  { size := 1, gameState := GameState.OVER,
    player := { field := [[⟨0, 0, CellState.HIT, 0⟩]], ships := [⟨"carrier", 1, 0⟩] } }

/-- The scenario of the spec: grid of size 2, one ship of size 2 on (0,0)-(0,1). -/
def scenario : State :=
  { size := 2, gameState := GameState.PLAYER_1_TURN,
    player :=
      { field := [[⟨0, 0, CellState.SHIP, 0⟩, ⟨0, 1, CellState.SHIP, 0⟩],
                  [⟨1, 0, CellState.EMPTY, -1⟩, ⟨1, 1, CellState.EMPTY, -1⟩]],
        ships := [⟨"submarine", 2, 2⟩] } }

/-- The scenario after the strike at (0,0). -/
def scenarioHit : State :=
  { size := 2, gameState := GameState.PLAYER_1_TURN,
    player :=
      { field := [[⟨0, 0, CellState.HIT, 0⟩, ⟨0, 1, CellState.SHIP, 0⟩],
                  [⟨1, 0, CellState.EMPTY, -1⟩, ⟨1, 1, CellState.EMPTY, -1⟩]],
        ships := [⟨"submarine", 2, 1⟩] } }

/-- The scenario after the strikes at (0,0) and (1,1). -/
def scenarioMiss : State :=
  { size := 2, gameState := GameState.PLAYER_1_TURN,
    player :=
      { field := [[⟨0, 0, CellState.HIT, 0⟩, ⟨0, 1, CellState.SHIP, 0⟩],
                  [⟨1, 0, CellState.EMPTY, -1⟩, ⟨1, 1, CellState.MISS, -1⟩]],
        ships := [⟨"submarine", 2, 1⟩] } }

/-- The scenario after the strikes at (0,0), (1,1) and (0,1). -/
def scenarioOver : State :=
  { size := 2, gameState := GameState.OVER,
    player :=
      { field := [[⟨0, 0, CellState.HIT, 0⟩, ⟨0, 1, CellState.HIT, 0⟩],
                  [⟨1, 0, CellState.EMPTY, -1⟩, ⟨1, 1, CellState.MISS, -1⟩]],
        ships := [⟨"submarine", 2, 0⟩] } }

/-- A running game whose cell at (0,0) stores the coordinates (0,1). -/
def misplacedShip : State :=
  { size := 2, gameState := GameState.PLAYER_1_TURN,
    player :=
      { field := [[⟨0, 1, CellState.SHIP, 0⟩, ⟨0, 1, CellState.EMPTY, -1⟩],
                  [⟨1, 0, CellState.EMPTY, -1⟩, ⟨1, 1, CellState.EMPTY, -1⟩]],
        ships := [⟨"submarine", 2, 2⟩] } }

/-- A layout that meets `GeneratorContract` in which the ship of size 1 has
its index on two cells and the ship of size 2 on one. -/
def crowded : State :=
  { size := 2, gameState := GameState.PLAYER_1_TURN,
    player :=
      { field := [[⟨0, 0, CellState.SHIP, 1⟩, ⟨0, 1, CellState.SHIP, 1⟩],
                  [⟨1, 0, CellState.SHIP, 0⟩, ⟨1, 1, CellState.EMPTY, -1⟩]],
        ships := [⟨"submarine", 2, 2⟩, ⟨"carrier", 1, 1⟩] } }

/-- A tidy layout whose `SHIP` cell at (0,0) stores the coordinates (0,1) of
the other cell of its ship. -/
def echoed : State :=
  { size := 2, gameState := GameState.PLAYER_1_TURN,
    player :=
      { field := [[⟨0, 1, CellState.SHIP, 0⟩, ⟨0, 1, CellState.SHIP, 0⟩],
                  [⟨1, 0, CellState.SHIP, 1⟩, ⟨1, 1, CellState.EMPTY, -1⟩]],
        ships := [⟨"submarine", 2, 2⟩, ⟨"carrier", 1, 1⟩] } }

/-- A layout with one ship of size 1 at (0,0) and a `SHIP` cell at (0,1) that
carries no ship index. -/
def strayShip : State :=
  { size := 2, gameState := GameState.PLAYER_1_TURN,
    player :=
      { field := [[⟨0, 0, CellState.SHIP, 0⟩, ⟨0, 1, CellState.SHIP, -1⟩],
                  [⟨1, 0, CellState.EMPTY, -1⟩, ⟨1, 1, CellState.EMPTY, -1⟩]],
        ships := [⟨"carrier", 1, 1⟩] } }

/-- A layout with one ship of size 1 at (0,0) and an `EMPTY` cell at (0,1) that
carries the index of that ship. -/
def strayIndex : State :=
  { size := 2, gameState := GameState.PLAYER_1_TURN,
    player :=
      { field := [[⟨0, 0, CellState.SHIP, 0⟩, ⟨0, 1, CellState.EMPTY, 0⟩],
                  [⟨1, 0, CellState.EMPTY, -1⟩, ⟨1, 1, CellState.EMPTY, -1⟩]],
        ships := [⟨"carrier", 1, 1⟩] } }

/-! ## Array access and `updateCell` -/

theorem jsGet_eq_some {α : Type} {a : List α} {i : Int} {v : α} :
    jsGet a i = some v ↔ 0 ≤ i ∧ a[i.toNat]? = some v := by
  unfold jsGet
  by_cases h : 0 ≤ i <;> simp [h]

theorem jsGet_natCast {α : Type} (a : List α) (n : Nat) : jsGet a (n : Int) = a[n]? := by
  simp [jsGet]

theorem cellAt_eq_some {field : Field} {x y : Int} {c : Cell} :
    cellAt field x y = some c ↔
      ∃ row, jsGet field x = some row ∧ jsGet row y = some c := by
  unfold cellAt
  cases h : jsGet field x <;> simp

theorem mapIdx_eq_set (row : List Cell) (y : Int) (hy : 0 ≤ y) (c : Cell)
    (hc : row[y.toNat]? = some c) (f : Cell → Cell) :
    row.mapIdx (fun i d => if (i : Int) = y then f d else d) = row.set y.toNat (f c) := by
  apply List.ext_getElem?
  intro n
  rw [List.getElem?_mapIdx, List.getElem?_set]
  by_cases hn : y.toNat = n
  · subst hn
    have hlt : y.toNat < row.length := by
      rcases List.getElem?_eq_some_iff.mp hc with ⟨h, _⟩
      exact h
    simp [hc, hlt, Int.toNat_of_nonneg hy]
  · have hne : ¬ ((n : Int) = y) := by
      intro h
      apply hn
      rw [← h]
      simp
    simp [hn, hne]

theorem updateCell_eq_set {field : Field} {x y : Int} {row : List Cell} {c : Cell}
    (hrow : jsGet field x = some row) (hc : jsGet row y = some c) (st : CellState) :
    updateCell field x y st = field.set x.toNat (row.set y.toNat { c with state := st }) := by
  unfold updateCell
  rw [hrow]
  simp only [hc]
  rw [mapIdx_eq_set row y (jsGet_eq_some.mp hc).1 c (jsGet_eq_some.mp hc).2]

theorem updateCell_eq_self {field : Field} {x y : Int} (h : cellAt field x y = none)
    (st : CellState) : updateCell field x y st = field := by
  unfold updateCell
  unfold cellAt at h
  cases hrow : jsGet field x with
  | none => rfl
  | some row =>
    rw [hrow] at h
    simp at h
    simp [h]


theorem jsGet_set {α : Type} (a : List α) (i : Nat) (v : α) (j : Int) :
    jsGet (a.set i v) j = if (i : Int) = j then (jsGet a j).map (fun _ => v) else jsGet a j := by
  unfold jsGet
  by_cases hj : 0 ≤ j
  · simp only [hj, if_true]
    rw [List.getElem?_set]
    by_cases hij : (i : Int) = j
    · have : i = j.toNat := by rw [← hij]; simp
      subst this
      simp only [hij, if_true]
      by_cases hlt : j.toNat < a.length
      · simp [hlt]
      · simp [hlt, List.getElem?_eq_none_iff.mpr (Nat.le_of_not_lt hlt)]
    · have : ¬ (i = j.toNat) := by
        intro h
        apply hij
        rw [h, Int.toNat_of_nonneg hj]
      simp [hij, this]
  · have : ¬ ((i : Int) = j) := by
      intro h
      apply hj
      rw [← h]
      exact Int.ofNat_nonneg i
    simp [hj, this]

theorem cellAt_updateCell (field : Field) (x y : Int) (st : CellState) (x' y' : Int) :
    cellAt (updateCell field x y st) x' y' =
      (cellAt field x' y').map
        (fun d => if x' = x ∧ y' = y then { d with state := st } else d) := by
  cases h : cellAt field x y with
  | none =>
    rw [updateCell_eq_self h]
    by_cases hxy : x' = x ∧ y' = y
    · rcases hxy with ⟨rfl, rfl⟩
      simp [h]
    · simp [hxy]
  | some c =>
    rcases cellAt_eq_some.mp h with ⟨row, hrow, hc⟩
    rw [updateCell_eq_set hrow hc]
    have hx := (jsGet_eq_some.mp hrow).1
    have hy := (jsGet_eq_some.mp hc).1
    unfold cellAt
    rw [jsGet_set]
    by_cases hxx : ((x.toNat : Nat) : Int) = x'
    · have hxe : x' = x := by rw [← hxx, Int.toNat_of_nonneg hx]
      subst hxe
      rw [if_pos hxx, hrow, Option.map_some', Option.some_bind, Option.some_bind, jsGet_set]
      by_cases hyy : ((y.toNat : Nat) : Int) = y'
      · have hye : y' = y := by rw [← hyy, Int.toNat_of_nonneg hy]
        subst hye
        rw [if_pos hyy, hc]
        simp
      · have hye : ¬ (y' = y) := by
          intro h'
          apply hyy
          rw [h', Int.toNat_of_nonneg hy]
        rw [if_neg hyy]
        cases jsGet row y' <;> simp [hye]
    · have hxe : ¬ (x' = x) := by
        intro h'
        apply hxx
        rw [h', Int.toNat_of_nonneg hx]
      rw [if_neg hxx]
      cases (jsGet field x').bind (fun row => jsGet row y') <;> simp [hxe]

/-! ## Counting cells and summing lives -/

theorem countP_set_add {α : Type} (p : α → Bool) (l : List α) (j : Nat) (a b : α)
    (h : l[j]? = some a) :
    (l.set j b).countP p + (if p a = true then 1 else 0) =
      l.countP p + (if p b = true then 1 else 0) := by
  induction l generalizing j with
  | nil => simp at h
  | cons hd tl ih =>
    cases j with
    | zero =>
      simp at h
      subst h
      simp only [List.set_cons_zero, List.countP_cons]
      omega
    | succ n =>
      simp at h
      have := ih n h
      simp only [List.set_cons_succ, List.countP_cons]
      omega

theorem countP_flatten_set_add {α : Type} (p : α → Bool) (L : List (List α)) (i : Nat)
    (row row' : List α) (h : L[i]? = some row) :
    (L.set i row').flatten.countP p + row.countP p =
      L.flatten.countP p + row'.countP p := by
  induction L generalizing i with
  | nil => simp at h
  | cons hd tl ih =>
    cases i with
    | zero =>
      simp at h
      subst h
      simp only [List.set_cons_zero, List.flatten_cons, List.countP_append]
      omega
    | succ n =>
      simp at h
      have := ih n h
      simp only [List.set_cons_succ, List.flatten_cons, List.countP_append]
      omega

theorem countCells_updateCell (p : Cell → Bool) {field : Field} {x y : Int} {c : Cell}
    (hc : cellAt field x y = some c) (st : CellState) :
    countCells p (updateCell field x y st) + (if p c = true then 1 else 0) =
      countCells p field + (if p { c with state := st } = true then 1 else 0) := by
  rcases cellAt_eq_some.mp hc with ⟨row, hrow, hcell⟩
  rw [updateCell_eq_set hrow hcell]
  unfold countCells
  have h1 := countP_flatten_set_add p field x.toNat row
    (row.set y.toNat { c with state := st }) (jsGet_eq_some.mp hrow).2
  have h2 := countP_set_add p row y.toNat c { c with state := st } (jsGet_eq_some.mp hcell).2
  omega

theorem sum_life_set (ships : List Ship) (i : Nat) (sh sh' : Ship)
    (h : ships[i]? = some sh) :
    ((ships.set i sh').map Ship.life).sum + sh.life =
      (ships.map Ship.life).sum + sh'.life := by
  induction ships generalizing i with
  | nil => simp at h
  | cons hd tl ih =>
    cases i with
    | zero =>
      simp at h
      subst h
      simp only [List.set_cons_zero, List.map_cons, List.sum_cons]
      omega
    | succ n =>
      simp at h
      have := ih n h
      simp only [List.set_cons_succ, List.map_cons, List.sum_cons]
      omega

theorem mem_flatten_iff_cellAt (field : Field) (c : Cell) :
    c ∈ field.flatten ↔ ∃ x y : Int, cellAt field x y = some c := by
  constructor
  · intro h
    rcases List.mem_flatten.mp h with ⟨row, hrow, hc⟩
    rcases List.mem_iff_getElem?.mp hrow with ⟨i, hi⟩
    rcases List.mem_iff_getElem?.mp hc with ⟨j, hj⟩
    refine ⟨(i : Int), (j : Int), ?_⟩
    rw [cellAt_eq_some]
    exact ⟨row, by rw [jsGet_natCast]; exact hi, by rw [jsGet_natCast]; exact hj⟩
  · rintro ⟨x, y, h⟩
    rcases cellAt_eq_some.mp h with ⟨row, hrow, hc⟩
    apply List.mem_flatten.mpr
    exact ⟨row, List.mem_iff_getElem?.mpr ⟨_, (jsGet_eq_some.mp hrow).2⟩,
      List.mem_iff_getElem?.mpr ⟨_, (jsGet_eq_some.mp hc).2⟩⟩

theorem ownCoords_of_check {field : Field} (h : ownCoordsCheck field = true) :
    OwnCoords field := by
  intro x y c hc
  rcases cellAt_eq_some.mp hc with ⟨row, hrow, hcell⟩
  rcases jsGet_eq_some.mp hrow with ⟨hx, hrow'⟩
  rcases jsGet_eq_some.mp hcell with ⟨hy, hcell'⟩
  unfold ownCoordsCheck at h
  rw [List.all_eq_true] at h
  have h1 := h (x.toNat, row) (List.mk_mem_enum_iff_getElem?.mpr hrow')
  rw [List.all_eq_true] at h1
  have h2 := h1 (y.toNat, c) (List.mk_mem_enum_iff_getElem?.mpr hcell')
  simp only [Bool.and_eq_true, beq_iff_eq, Int.toNat_of_nonneg hx, Int.toNat_of_nonneg hy] at h2
  exact h2

theorem ownCoords_updateCell {field : Field} (h : OwnCoords field) (x y : Int)
    (st : CellState) : OwnCoords (updateCell field x y st) := by
  intro x' y' c hc
  rw [cellAt_updateCell] at hc
  cases hd : cellAt field x' y' with
  | none => rw [hd] at hc; simp at hc
  | some d =>
    rw [hd] at hc
    simp only [Option.map_some', Option.some.injEq] at hc
    have := h x' y' d hd
    rw [← hc]
    split <;> exact this

/-! ## Case analysis of `handleAction` -/

theorem struck_iff_not_unstruck (c : Cell) : struck c = true ↔ unstruck c = false := by
  cases c with
  | mk x y st sh => cases st <;> simp [struck, unstruck]

theorem unstruck_iff (c : Cell) :
    unstruck c = true ↔ (c.state = CellState.EMPTY ∨ c.state = CellState.SHIP) := by
  simp [unstruck]

/-- A strike on a finished game restarts it with the fresh layout. -/
theorem handleAction_over {s : State} (h : s.gameState = GameState.OVER)
    (fresh : PlayerState) (x y : Int) :
    handleAction fresh s x y =
      Except.ok { size := s.size, gameState := GameState.PLAYER_1_TURN, player := fresh } := by
  simp [handleAction, updater, h, merge, reset]

/-- The lookup `field[x][y]` of a position outside the field raises. -/
theorem handleAction_outside {s : State} (h : s.gameState = GameState.PLAYER_1_TURN)
    (fresh : PlayerState) {x y : Int} (hc : cellAt s.player.field x y = none) :
    handleAction fresh s x y = Except.error JsError.typeError := by
  unfold cellAt at hc
  cases hrow : jsGet s.player.field x with
  | none => simp [handleAction, updater, h, hrow]
  | some row =>
    rw [hrow] at hc
    simp at hc
    simp [handleAction, updater, h, hrow, hc]

/-- In a running game, `handleAction` is `ply` on the cell that was looked up. -/
theorem handleAction_inProgress {s : State} (h : s.gameState = GameState.PLAYER_1_TURN)
    (fresh : PlayerState) {x y : Int} {c : Cell} (hc : cellAt s.player.field x y = some c) :
    handleAction fresh s x y =
      match ply s.player c with
      | Except.error e => Except.error e
      | Except.ok u => Except.ok (merge s u) := by
  rcases cellAt_eq_some.mp hc with ⟨row, hrow, hcell⟩
  simp [handleAction, updater, h, hrow, hcell]

/-- A strike on a struck cell leaves the state as it is. -/
theorem handleAction_struck {s : State} (h : s.gameState = GameState.PLAYER_1_TURN)
    (fresh : PlayerState) {x y : Int} {c : Cell} (hc : cellAt s.player.field x y = some c)
    (hs : unstruck c = false) : handleAction fresh s x y = Except.ok s := by
  rw [handleAction_inProgress h fresh hc]
  have : ¬ (c.state = CellState.EMPTY ∨ c.state = CellState.SHIP) := by
    rw [← unstruck_iff, hs]
    simp
  simp [ply, this, merge]

/-- A strike on an unstruck cell that refers to no ship. -/
theorem handleAction_noShip {s : State} (h : s.gameState = GameState.PLAYER_1_TURN)
    (fresh : PlayerState) {x y : Int} {c : Cell} (hc : cellAt s.player.field x y = some c)
    (hu : unstruck c = true) (hship : c.ship = -1) :
    handleAction fresh s x y = Except.ok
      { size := s.size
        gameState :=
          if s.player.ships.all (fun ship => ship.life == 0) then GameState.OVER
          else GameState.PLAYER_1_TURN
        player :=
          { field := updateCell s.player.field c.x c.y
              (if c.state = CellState.SHIP then CellState.HIT else CellState.MISS)
            ships := s.player.ships } } := by
  rw [handleAction_inProgress h fresh hc]
  have hu' := (unstruck_iff c).mp hu
  simp [ply, hu', hship, merge]

/-- A strike on an unstruck cell that refers to a ship of the list. -/
theorem handleAction_ship {s : State} (h : s.gameState = GameState.PLAYER_1_TURN)
    (fresh : PlayerState) {x y : Int} {c : Cell} (hc : cellAt s.player.field x y = some c)
    (hu : unstruck c = true) (hship : c.ship ≠ -1) {sh : Ship}
    (hsh : jsGet s.player.ships c.ship = some sh) :
    handleAction fresh s x y = Except.ok
      { size := s.size
        gameState :=
          if (s.player.ships.set c.ship.toNat { sh with life := sh.life - 1 }).all
              (fun ship => ship.life == 0) then GameState.OVER
          else GameState.PLAYER_1_TURN
        player :=
          { field := updateCell s.player.field c.x c.y
              (if c.state = CellState.SHIP then CellState.HIT else CellState.MISS)
            ships := s.player.ships.set c.ship.toNat { sh with life := sh.life - 1 } } } := by
  rw [handleAction_inProgress h fresh hc]
  have hu' := (unstruck_iff c).mp hu
  simp [ply, hu', hship, hsh, merge, updateShip]

/-- A strike on an unstruck cell that refers to a ship missing from the list raises. -/
theorem handleAction_dangling {s : State} (h : s.gameState = GameState.PLAYER_1_TURN)
    (fresh : PlayerState) {x y : Int} {c : Cell} (hc : cellAt s.player.field x y = some c)
    (hu : unstruck c = true) (hship : c.ship ≠ -1)
    (hsh : jsGet s.player.ships c.ship = none) :
    handleAction fresh s x y = Except.error JsError.typeError := by
  rw [handleAction_inProgress h fresh hc]
  have hu' := (unstruck_iff c).mp hu
  simp [ply, hu', hship, hsh]





/-! ## Invariants of a game -/

theorem all_destroyed_iff (ships : List Ship) :
    ships.all (fun ship => ship.life == 0) = true ↔ ∀ sh ∈ ships, sh.life = 0 := by
  rw [List.all_eq_true]
  constructor
  · intro h sh hm
    simpa using h sh hm
  · intro h sh hm
    simp [h sh hm]

theorem phase_eq_over_iff (ships : List Ship) :
    (if ships.all (fun ship => ship.life == 0) then GameState.OVER
      else GameState.PLAYER_1_TURN) = GameState.OVER ↔ ∀ sh ∈ ships, sh.life = 0 := by
  rw [← all_destroyed_iff]
  by_cases h : ships.all (fun ship => ship.life == 0) = true
  · simp [h]
  · simp [h]

theorem phase_eq_turn_iff (ships : List Ship) :
    (if ships.all (fun ship => ship.life == 0) then GameState.OVER
      else GameState.PLAYER_1_TURN) = GameState.PLAYER_1_TURN ↔
      ¬ ∀ sh ∈ ships, sh.life = 0 := by
  rw [← all_destroyed_iff]
  by_cases h : ships.all (fun ship => ship.life == 0) = true
  · simp [h]
  · simp [h]

theorem unstruck_marked (c : Cell) :
    unstruck { c with state :=
      if c.state = CellState.SHIP then CellState.HIT else CellState.MISS } = false := by
  by_cases h : c.state = CellState.SHIP <;> simp [unstruck, h]

theorem armed_marked (c : Cell) :
    armed { c with state :=
      if c.state = CellState.SHIP then CellState.HIT else CellState.MISS } = false := by
  unfold armed
  rw [unstruck_marked]
  rfl

theorem hullOf_marked (i : Nat) (c : Cell) :
    hullOf i { c with state :=
      if c.state = CellState.SHIP then CellState.HIT else CellState.MISS } = false := by
  unfold hullOf
  rw [unstruck_marked]
  rfl

/-- What a successful strike on a running game amounts to. -/
theorem handleAction_ok_cases {s s' : State} (h : s.gameState = GameState.PLAYER_1_TURN)
    {fresh : PlayerState} {x y : Int} (hs' : handleAction fresh s x y = Except.ok s') :
    ∃ c, cellAt s.player.field x y = some c ∧
      ((unstruck c = false ∧ s' = s) ∨
       (unstruck c = true ∧ c.ship = -1 ∧
          s' = { size := s.size
                 gameState :=
                   if s.player.ships.all (fun ship => ship.life == 0) then GameState.OVER
                   else GameState.PLAYER_1_TURN
                 player :=
                   { field := updateCell s.player.field c.x c.y
                       (if c.state = CellState.SHIP then CellState.HIT else CellState.MISS)
                     ships := s.player.ships } }) ∨
       (unstruck c = true ∧ c.ship ≠ -1 ∧ ∃ sh, jsGet s.player.ships c.ship = some sh ∧
          s' = { size := s.size
                 gameState :=
                   if (s.player.ships.set c.ship.toNat { sh with life := sh.life - 1 }).all
                       (fun ship => ship.life == 0) then GameState.OVER
                   else GameState.PLAYER_1_TURN
                 player :=
                   { field := updateCell s.player.field c.x c.y
                       (if c.state = CellState.SHIP then CellState.HIT else CellState.MISS)
                     ships := s.player.ships.set c.ship.toNat
                       { sh with life := sh.life - 1 } } })) := by
  cases hcell : cellAt s.player.field x y with
  | none =>
    rw [handleAction_outside h fresh hcell] at hs'
    cases hs'
  | some c =>
    refine ⟨c, rfl, ?_⟩
    cases hu : unstruck c with
    | false =>
      rw [handleAction_struck h fresh hcell hu] at hs'
      cases hs'
      exact Or.inl ⟨rfl, rfl⟩
    | true =>
      by_cases hship : c.ship = -1
      · rw [handleAction_noShip h fresh hcell hu hship] at hs'
        cases hs'
        exact Or.inr (Or.inl ⟨rfl, hship, rfl⟩)
      · cases hsh : jsGet s.player.ships c.ship with
        | none =>
          rw [handleAction_dangling h fresh hcell hu hship hsh] at hs'
          cases hs'
        | some t =>
          rw [handleAction_ship h fresh hcell hu hship hsh] at hs'
          cases hs'
          exact Or.inr (Or.inr ⟨rfl, hship, t, rfl, rfl⟩)



theorem balanced_of_contract (size : Int) {p : PlayerState}
    (hc : GeneratorContract p) (hs : HasShip p) :
    Balanced { size := size, gameState := GameState.PLAYER_1_TURN, player := p } := by
  rcases hc with ⟨hown, hcells, hlife, hcount⟩
  refine ⟨hown, ?_, ?_, ?_, ?_⟩
  · intro x y c hcell _
    have hm : c ∈ p.field.flatten := (mem_flatten_iff_cellAt _ _).mpr ⟨x, y, hcell⟩
    rcases hcells c hm with ⟨_, h1, h2⟩ | ⟨_, h⟩
    · exact Or.inr ⟨h1, h2⟩
    · exact Or.inl h
  · have h1 : countCells armed p.field =
        countCells (fun c => c.state == CellState.SHIP) p.field := by
      unfold countCells
      apply List.countP_congr
      intro c hm
      rcases hcells c hm with ⟨h0, h1, _⟩ | ⟨h0, h1⟩
      · have : c.ship ≠ -1 := by omega
        simp [armed, unstruck, h0, this]
      · simp [armed, unstruck, h0, h1]
    have h2 : p.ships.map Ship.life = p.ships.map Ship.size :=
      List.map_congr_left hlife
    show (countCells armed p.field : Int) = (p.ships.map Ship.life).sum
    rw [h1, h2]
    exact hcount
  · intro _
    rcases hs with ⟨sh, hm, hpos⟩
    refine ⟨sh, hm, ?_⟩
    have := hlife sh hm
    show sh.life ≠ 0
    omega
  · intro h
    cases h

theorem balanced_strike {s s' : State} (hb : Balanced s)
    (h : s.gameState = GameState.PLAYER_1_TURN)
    {fresh : PlayerState} {x y : Int} (hs' : handleAction fresh s x y = Except.ok s') :
    Balanced s' := by
  rcases hb with ⟨hown, hrefs, hsum, hturn, hover⟩
  rcases handleAction_ok_cases h hs' with ⟨c, hcell, hcase⟩
  have hxy := hown x y c hcell
  have hrefsUpd : ∀ (x' y' : Int) (d : Cell),
      cellAt (updateCell s.player.field c.x c.y
        (if c.state = CellState.SHIP then CellState.HIT else CellState.MISS)) x' y' = some d →
      unstruck d = true →
      d.ship = -1 ∨ (0 ≤ d.ship ∧ d.ship < (s.player.ships.length : Int)) := by
    intro x' y' d hd hu
    rw [cellAt_updateCell] at hd
    cases h0 : cellAt s.player.field x' y' with
    | none => rw [h0] at hd; simp at hd
    | some d0 =>
      rw [h0] at hd
      simp only [Option.map_some', Option.some.injEq] at hd
      by_cases hpos : x' = c.x ∧ y' = c.y
      · rw [if_pos hpos] at hd
        have hd0 : d0 = c := by
          rw [hpos.1, hpos.2, hxy.1, hxy.2, hcell] at h0
          exact (Option.some.inj h0).symm
        rw [hd0] at hd
        rw [← hd, unstruck_marked] at hu
        cases hu
      · rw [if_neg hpos] at hd
        rw [← hd] at hu ⊢
        exact hrefs x' y' d0 h0 hu
  have hcnt := @countCells_updateCell armed s.player.field c.x c.y c
    (by rw [hxy.1, hxy.2]; exact hcell)
    (if c.state = CellState.SHIP then CellState.HIT else CellState.MISS)
  rw [armed_marked] at hcnt
  rcases hcase with ⟨_, rfl⟩ | ⟨hu, hship, rfl⟩ | ⟨hu, hship, sh, hsh, rfl⟩
  · exact ⟨hown, hrefs, hsum, hturn, hover⟩
  · refine ⟨ownCoords_updateCell hown _ _ _, hrefsUpd, ?_, ?_, ?_⟩
    · have harm : armed c = false := by simp [armed, hship]
      rw [harm] at hcnt
      simp only [Bool.false_eq_true, if_false, Nat.add_zero] at hcnt
      show (countCells armed (updateCell _ _ _ _) : Int) = _
      rw [hcnt]
      exact hsum
    · intro hp
      have := (phase_eq_turn_iff _).mp hp
      by_contra hne
      apply this
      intro t ht
      by_contra h0
      exact hne ⟨t, ht, h0⟩
    · intro hp
      exact (phase_eq_over_iff _).mp hp
  · have hnn := (jsGet_eq_some.mp hsh).1
    have hget := (jsGet_eq_some.mp hsh).2
    refine ⟨ownCoords_updateCell hown _ _ _, ?_, ?_, ?_, ?_⟩
    · intro x' y' d hd hu'
      have := hrefsUpd x' y' d hd hu'
      simpa using this
    · have harm : armed c = true := by simp [armed, hu, hship]
      rw [harm] at hcnt
      simp only [if_true, Bool.false_eq_true, if_false, Nat.add_zero] at hcnt
      have hl := sum_life_set s.player.ships c.ship.toNat sh
        { sh with life := sh.life - 1 } hget
      show ((countCells armed (updateCell s.player.field c.x c.y
          (if c.state = CellState.SHIP then CellState.HIT else CellState.MISS)) : Nat) : Int) =
        ((s.player.ships.set c.ship.toNat { sh with life := sh.life - 1 }).map Ship.life).sum
      simp only at hl
      omega
    · intro hp
      have := (phase_eq_turn_iff _).mp hp
      by_contra hne
      apply this
      intro t ht
      by_contra h0
      exact hne ⟨t, ht, h0⟩
    · intro hp
      exact (phase_eq_over_iff _).mp hp

theorem balanced_step {s s' : State} (hb : Balanced s) {fresh : PlayerState}
    (hf : GeneratorContract fresh ∧ HasShip fresh) {x y : Int}
    (hs' : handleAction fresh s x y = Except.ok s') : Balanced s' := by
  cases hp : s.gameState with
  | PLAYER_1_TURN => exact balanced_strike hb hp hs'
  | OVER =>
    rw [handleAction_over hp] at hs'
    cases hs'
    exact balanced_of_contract s.size hf.1 hf.2

theorem balanced_run {s0 s : State} (strikes : List Strike) (hb : Balanced s0)
    (hf : ∀ a ∈ strikes, GeneratorContract a.fresh ∧ HasShip a.fresh)
    (hrun : run s0 strikes = Except.ok s) : Balanced s := by
  induction strikes generalizing s0 with
  | nil =>
    simp only [run] at hrun
    cases hrun
    exact hb
  | cons a rest ih =>
    simp only [run] at hrun
    cases hstep : handleAction a.fresh s0 a.x a.y with
    | error e => rw [hstep] at hrun; cases hrun
    | ok next =>
      rw [hstep] at hrun
      exact ih (balanced_step hb (hf a (List.mem_cons_self _ _)) hstep)
        (fun b hb' => hf b (List.mem_cons_of_mem _ hb')) hrun



theorem lives_zero_of_nonpos (ships : List Ship) (hle : ∀ sh ∈ ships, sh.life ≤ 0)
    (hsum : 0 ≤ (ships.map Ship.life).sum) : ∀ sh ∈ ships, sh.life = 0 := by
  induction ships with
  | nil => intro sh hm; cases hm
  | cons hd tl ih =>
    have h1 : hd.life ≤ 0 := hle hd (List.mem_cons_self _ _)
    have h2 : ∀ sh ∈ tl, sh.life ≤ 0 := fun sh hm => hle sh (List.mem_cons_of_mem _ hm)
    have h3 : (tl.map Ship.life).sum ≤ 0 := by
      clear ih hsum hle h1
      induction tl with
      | nil => simp
      | cons a r ihr =>
        have := h2 a (List.mem_cons_self _ _)
        have := ihr (fun sh hm => h2 sh (List.mem_cons_of_mem _ hm))
        simp only [List.map_cons, List.sum_cons]
        omega
    simp only [List.map_cons, List.sum_cons] at hsum
    intro sh hm
    rcases List.mem_cons.mp hm with rfl | hm
    · omega
    · exact ih h2 (by omega) sh hm

theorem win_step {s s' : State} (hb : Balanced s) {fresh : PlayerState} {x y : Int}
    (hs' : handleAction fresh s x y = Except.ok s') :
    s'.gameState = GameState.OVER ↔ LastShipSunk s s' := by
  cases hp : s.gameState with
  | OVER =>
    have hzero := hb.2.2.2.2 hp
    rw [handleAction_over hp] at hs'
    cases hs'
    constructor
    · intro h; cases h
    · rintro ⟨i, sh, sh', hi, _, hpos, _, _⟩
      have := hzero sh (List.mem_iff_getElem?.mpr ⟨i, hi⟩)
      omega
  | PLAYER_1_TURN =>
    have hb' := balanced_strike hb hp hs'
    rcases hb.2.2.2.1 hp with ⟨live, hlive, hlive0⟩
    rcases handleAction_ok_cases hp hs' with ⟨c, hcell, hcase⟩
    rcases hcase with ⟨_, rfl⟩ | ⟨hu, hship, rfl⟩ | ⟨hu, hship, t, hsh, rfl⟩
    · constructor
      · intro h; rw [hp] at h; cases h
      · rintro ⟨i, sh, sh', hi, hi', hpos, hz, _⟩
        rw [hi] at hi'
        cases hi'
        omega
    · constructor
      · intro h
        have := (phase_eq_over_iff _).mp h live hlive
        exact absurd this hlive0
      · rintro ⟨i, sh, sh', hi, hi', hpos, hz, _⟩
        have hi'' : s.player.ships[i]? = some sh' := hi'
        rw [hi] at hi''
        cases hi''
        omega
    · have hget := (jsGet_eq_some.mp hsh).2
      have hlt : c.ship.toNat < s.player.ships.length :=
        (List.getElem?_eq_some_iff.mp hget).1
      have hnew : ∀ j : Nat,
          (s.player.ships.set c.ship.toNat { t with life := t.life - 1 })[j]? =
            if c.ship.toNat = j then some { t with life := t.life - 1 }
            else s.player.ships[j]? := by
        intro j
        rw [List.getElem?_set]
        by_cases hj : c.ship.toNat = j
        · rw [if_pos hj, if_pos hj, if_pos hlt]
        · rw [if_neg hj, if_neg hj]
      constructor
      · intro h
        have hall := (phase_eq_over_iff _).mp h
        have hk := hall { t with life := t.life - 1 }
          (List.mem_iff_getElem?.mpr ⟨c.ship.toNat, by rw [hnew, if_pos rfl]⟩)
        refine ⟨c.ship.toNat, t, { t with life := t.life - 1 }, hget, ?_, ?_, hk, ?_⟩
        · show (s.player.ships.set c.ship.toNat { t with life := t.life - 1 })[c.ship.toNat]? = _
          rw [hnew, if_pos rfl]
        · simp only at hk
          omega
        · intro j u hj hu
          have hm : u ∈ s.player.ships.set c.ship.toNat { t with life := t.life - 1 } := by
            apply List.mem_iff_getElem?.mpr
            refine ⟨j, ?_⟩
            rw [hnew, if_neg (fun e => hj e.symm)]
            exact hu
          have := hall u hm
          omega
      · rintro ⟨i, sh, sh', hi, hi', hpos, hz, hothers⟩
        have hi'' : (s.player.ships.set c.ship.toNat { t with life := t.life - 1 })[i]? =
            some sh' := hi'
        rw [hnew] at hi''
        by_cases hik : c.ship.toNat = i
        · rw [if_pos hik] at hi''
          apply (phase_eq_over_iff _).mpr
          apply lives_zero_of_nonpos
          · intro u hu
            rcases List.mem_iff_getElem?.mp hu with ⟨j, hj⟩
            rw [hnew] at hj
            by_cases hkj : c.ship.toNat = j
            · rw [if_pos hkj] at hj
              rw [← Option.some.inj hj, Option.some.inj hi'']
              omega
            · rw [if_neg hkj] at hj
              have := hothers j u (fun e => hkj (by rw [hik, e])) hj
              omega
          · have := hb'.2.2.1
            have hsum : ((countCells armed (updateCell s.player.field c.x c.y
                (if c.state = CellState.SHIP then CellState.HIT else CellState.MISS)) : Nat) :
                  Int) =
                ((s.player.ships.set c.ship.toNat { t with life := t.life - 1 }).map
                  Ship.life).sum := this
            rw [← hsum]
            exact Int.ofNat_nonneg _
        · rw [if_neg hik, hi] at hi''
          cases hi''
          omega



theorem hullsTracked_of_match {p : PlayerState} (hown : OwnCoords p.field)
    (hm : HullsMatch p) : HullsTracked p := by
  refine ⟨hown, ?_⟩
  intro i sh hi
  rcases hm i sh hi with ⟨h1, h2⟩
  exact ⟨by rw [h2, h1], by rw [h1]⟩

theorem hullsTracked_strike {s s' : State} (hb : HullsTracked s.player)
    (h : s.gameState = GameState.PLAYER_1_TURN)
    {fresh : PlayerState} {x y : Int} (hs' : handleAction fresh s x y = Except.ok s') :
    HullsTracked s'.player := by
  rcases hb with ⟨hown, htrack⟩
  rcases handleAction_ok_cases h hs' with ⟨c, hcell, hcase⟩
  have hxy := hown x y c hcell
  have hcnt : ∀ i : Nat,
      countCells (hullOf i) (updateCell s.player.field c.x c.y
        (if c.state = CellState.SHIP then CellState.HIT else CellState.MISS)) +
        (if hullOf i c = true then 1 else 0) = countCells (hullOf i) s.player.field := by
    intro i
    have := @countCells_updateCell (hullOf i) s.player.field c.x c.y c
      (by rw [hxy.1, hxy.2]; exact hcell)
      (if c.state = CellState.SHIP then CellState.HIT else CellState.MISS)
    rw [hullOf_marked] at this
    simpa using this
  rcases hcase with ⟨_, rfl⟩ | ⟨hu, hship, rfl⟩ | ⟨hu, hship, t, hsh, rfl⟩
  · exact ⟨hown, htrack⟩
  · refine ⟨ownCoords_updateCell hown _ _ _, ?_⟩
    intro i sh hi
    have hh : hullOf i c = false := by
      have : ¬ (c.ship = (i : Int)) := by omega
      simp [hullOf, this]
    have h1 := hcnt i
    rw [hh] at h1
    simp only [Bool.false_eq_true, if_false, Nat.add_zero] at h1
    have h2 := htrack i sh hi
    show ((countCells (hullOf i) (updateCell s.player.field c.x c.y
        (if c.state = CellState.SHIP then CellState.HIT else CellState.MISS)) : Nat) : Int) =
          sh.life ∧ sh.life ≤ sh.size
    rw [h1]
    exact h2
  · have hnn := (jsGet_eq_some.mp hsh).1
    have hget := (jsGet_eq_some.mp hsh).2
    have hlt : c.ship.toNat < s.player.ships.length :=
      (List.getElem?_eq_some_iff.mp hget).1
    refine ⟨ownCoords_updateCell hown _ _ _, ?_⟩
    intro i sh hi
    have hi' : (s.player.ships.set c.ship.toNat { t with life := t.life - 1 })[i]? =
        some sh := hi
    rw [List.getElem?_set] at hi'
    have h1 := hcnt i
    show ((countCells (hullOf i) (updateCell s.player.field c.x c.y
        (if c.state = CellState.SHIP then CellState.HIT else CellState.MISS)) : Nat) : Int) =
          sh.life ∧ sh.life ≤ sh.size
    by_cases hk : c.ship.toNat = i
    · rw [if_pos hk, if_pos hlt] at hi'
      have hsh' := Option.some.inj hi'
      have hh : hullOf i c = true := by
        have : c.ship = (i : Int) := by omega
        simp [hullOf, hu, this]
      rw [hh] at h1
      simp only [if_true] at h1
      have h2 := htrack c.ship.toNat t hget
      rw [hk] at h2
      rw [← hsh']
      simp only
      omega
    · rw [if_neg hk] at hi'
      have hh : hullOf i c = false := by
        have : ¬ (c.ship = (i : Int)) := by omega
        simp [hullOf, this]
      rw [hh] at h1
      simp only [Bool.false_eq_true, if_false, Nat.add_zero] at h1
      rw [h1]
      exact htrack i sh hi'

theorem hullsTracked_run {s0 s : State} (strikes : List Strike)
    (hb : HullsTracked s0.player)
    (hf : ∀ a ∈ strikes, OwnCoords a.fresh.field ∧ HullsMatch a.fresh)
    (hrun : run s0 strikes = Except.ok s) : HullsTracked s.player := by
  induction strikes generalizing s0 with
  | nil =>
    simp only [run] at hrun
    cases hrun
    exact hb
  | cons a rest ih =>
    simp only [run] at hrun
    cases hstep : handleAction a.fresh s0 a.x a.y with
    | error e => rw [hstep] at hrun; cases hrun
    | ok next =>
      rw [hstep] at hrun
      have hfa := hf a (List.mem_cons_self _ _)
      have hnext : HullsTracked next.player := by
        cases hp : s0.gameState with
        | PLAYER_1_TURN => exact hullsTracked_strike hb hp hstep
        | OVER =>
          rw [handleAction_over hp] at hstep
          cases hstep
          exact hullsTracked_of_match hfa.1 hfa.2
      exact ih hnext (fun b hb' => hf b (List.mem_cons_of_mem _ hb')) hrun


/-! ## Re-strike (C1) -/

/-- C1, as stated, fails on a finished game: the cell at (0,0) of `overOne` is
`HIT`, yet the strike at (0,0) does not return `overOne` but the restarted
game. -/
theorem restrike_finished_game_restarts :
    overOne.gameState = GameState.OVER ∧
    cellAt overOne.player.field 0 0 = some ⟨0, 0, CellState.HIT, 0⟩ ∧
    handleAction freshOne overOne 0 0 =
      Except.ok { size := 1, gameState := GameState.PLAYER_1_TURN, player := freshOne } ∧
    handleAction freshOne overOne 0 0 ≠ Except.ok overOne := by
  decide

/-- C1 (amended): in a running game, a strike at a cell whose state is `MISS`
or `HIT` returns the state it was given: game phase, field and ship list are
unchanged. -/
theorem restrike_idempotent (fresh : PlayerState) (s : State) (x y : Int) (c : Cell)
    (h : s.gameState = GameState.PLAYER_1_TURN)
    (hc : cellAt s.player.field x y = some c)
    (hs : c.state = CellState.MISS ∨ c.state = CellState.HIT) :
    handleAction fresh s x y = Except.ok s := by
  apply handleAction_struck h fresh hc
  rcases hs with hs | hs <;> simp [unstruck, hs]

/-- C1 (amended) on the scenario of the spec after its first strike: the cell at (0,0) is `HIT`. -/
theorem restrike_idempotent_witness :
    handleAction freshOne scenarioHit 0 0 = Except.ok scenarioHit :=
  restrike_idempotent freshOne scenarioHit 0 0 ⟨0, 0, CellState.HIT, 0⟩
    (by decide) (by decide) (by decide)

/-! ## Hit and miss steps -/

/-- A strike of a running game at a `SHIP` cell that stores its own coordinates
and refers to a ship of the list: the cell at (x,y) becomes `HIT` and the life
of that ship is lowered by exactly 1, nothing else in the ship list changes. -/
theorem hit_step (fresh : PlayerState) (s : State) (x y : Int) (c : Cell) (sh : Ship)
    (h : s.gameState = GameState.PLAYER_1_TURN)
    (hc : cellAt s.player.field x y = some c)
    (hst : c.state = CellState.SHIP)
    (hown : c.x = x ∧ c.y = y)
    (hsh : jsGet s.player.ships c.ship = some sh) :
    ∃ s', handleAction fresh s x y = Except.ok s' ∧
      cellAt s'.player.field x y = some { c with state := CellState.HIT } ∧
      s'.player.ships.length = s.player.ships.length ∧
      jsGet s'.player.ships c.ship =
        some { type := sh.type, size := sh.size, life := sh.life - 1 } ∧
      ∀ j : Int, j ≠ c.ship → jsGet s'.player.ships j = jsGet s.player.ships j := by
  have hu : unstruck c = true := by simp [unstruck, hst]
  have hnn : 0 ≤ c.ship := (jsGet_eq_some.mp hsh).1
  have hne : c.ship ≠ -1 := by omega
  refine ⟨_, handleAction_ship h fresh hc hu hne hsh, ?_, ?_, ?_, ?_⟩
  · simp only [cellAt_updateCell, hown.1, hown.2, hc, hst]
    simp
    exact hown
  · simp
  · simp only [jsGet_set, Int.toNat_of_nonneg hnn, hsh]
    simp
  · intro j hj
    simp only [jsGet_set, Int.toNat_of_nonneg hnn]
    rw [if_neg (fun e => hj e.symm)]

/-- A strike of a running game at an `EMPTY` cell that stores its own
coordinates and refers to no ship: the cell at (x,y) becomes `MISS` and the ship
list is the one that was given. -/
theorem miss_step (fresh : PlayerState) (s : State) (x y : Int) (c : Cell)
    (h : s.gameState = GameState.PLAYER_1_TURN)
    (hc : cellAt s.player.field x y = some c)
    (hst : c.state = CellState.EMPTY)
    (hown : c.x = x ∧ c.y = y)
    (hship : c.ship = -1) :
    ∃ s', handleAction fresh s x y = Except.ok s' ∧
      cellAt s'.player.field x y = some { c with state := CellState.MISS } ∧
      s'.player.ships = s.player.ships := by
  have hu : unstruck c = true := by simp [unstruck, hst]
  refine ⟨_, handleAction_noShip h fresh hc hu hship, ?_, rfl⟩
  simp only [cellAt_updateCell, hown.1, hown.2, hc, hst]
  simp
  exact hown

/-! ## Game phase of a strike (C5) -/

/-- C5: in a running game, for a strike at a cell that is `EMPTY` or `SHIP`,
the game phase of the returned state is `OVER` if and only if every ship of the
returned ship list has life 0, and `PLAYER_1_TURN` otherwise; the strike does
return a state whenever the cell refers to no ship or to a ship of the list. -/
theorem phase_after_strike (fresh : PlayerState) (s : State) (x y : Int) (c : Cell)
    (h : s.gameState = GameState.PLAYER_1_TURN)
    (hc : cellAt s.player.field x y = some c)
    (hu : c.state = CellState.EMPTY ∨ c.state = CellState.SHIP) :
    (∀ s', handleAction fresh s x y = Except.ok s' →
      (s'.gameState = GameState.OVER ↔ ∀ ship ∈ s'.player.ships, ship.life = 0) ∧
      (¬ (∀ ship ∈ s'.player.ships, ship.life = 0) →
        s'.gameState = GameState.PLAYER_1_TURN)) ∧
    ((c.ship = -1 ∨ (jsGet s.player.ships c.ship).isSome = true) →
      ∃ s', handleAction fresh s x y = Except.ok s') := by
  have hu' : unstruck c = true := (unstruck_iff c).mpr hu
  have key : ∀ ships : List Ship,
      ((if ships.all (fun ship => ship.life == 0) then GameState.OVER
          else GameState.PLAYER_1_TURN) = GameState.OVER ↔ ∀ ship ∈ ships, ship.life = 0) ∧
      (¬ (∀ ship ∈ ships, ship.life = 0) →
        (if ships.all (fun ship => ship.life == 0) then GameState.OVER
          else GameState.PLAYER_1_TURN) = GameState.PLAYER_1_TURN) := by
    intro ships
    by_cases hall : ∀ ship ∈ ships, ship.life = 0
    · have : ships.all (fun ship => ship.life == 0) = true := by
        rw [List.all_eq_true]
        intro ship hm
        simp [hall ship hm]
      rw [if_pos this]
      exact ⟨⟨fun _ => hall, fun _ => rfl⟩, fun hn => absurd hall hn⟩
    · have : ¬ (ships.all (fun ship => ship.life == 0) = true) := by
        rw [List.all_eq_true]
        intro hh
        apply hall
        intro ship hm
        simpa using hh ship hm
      rw [if_neg this]
      exact ⟨⟨fun e => (by cases e), fun hh => absurd hh hall⟩, fun _ => rfl⟩
  constructor
  · intro s' hs'
    by_cases hship : c.ship = -1
    · rw [handleAction_noShip h fresh hc hu' hship] at hs'
      cases hs'
      exact key _
    · cases hsh : jsGet s.player.ships c.ship with
      | none =>
        rw [handleAction_dangling h fresh hc hu' hship hsh] at hs'
        cases hs'
      | some sh =>
        rw [handleAction_ship h fresh hc hu' hship hsh] at hs'
        cases hs'
        exact key _
  · intro hv
    by_cases hship : c.ship = -1
    · exact ⟨_, handleAction_noShip h fresh hc hu' hship⟩
    · rcases hv with hv | hv
      · exact absurd hv hship
      · cases hsh : jsGet s.player.ships c.ship with
        | none => rw [hsh] at hv; cases hv
        | some sh => exact ⟨_, handleAction_ship h fresh hc hu' hship hsh⟩

/-- C5 on the scenario of the spec after its first strike: the strike at (0,1). -/
theorem phase_after_strike_witness :
    (∀ s', handleAction freshOne scenarioHit 0 1 = Except.ok s' →
      (s'.gameState = GameState.OVER ↔ ∀ ship ∈ s'.player.ships, ship.life = 0) ∧
      (¬ (∀ ship ∈ s'.player.ships, ship.life = 0) →
        s'.gameState = GameState.PLAYER_1_TURN)) ∧
    (((0 : Int) = -1 ∨ (jsGet scenarioHit.player.ships 0).isSome = true) →
      ∃ s', handleAction freshOne scenarioHit 0 1 = Except.ok s') :=
  phase_after_strike freshOne scenarioHit 0 1 ⟨0, 1, CellState.SHIP, 0⟩
    (by decide) (by decide) (by decide)

/-! ## Strikes outside the grid -/

/-- On a running game whose field is a `size × size` grid, a strike with `x` or
`y` outside `[0, size)` raises: the lookup `field[x][y]` finds no row, or no
cell whose state could be read. -/
theorem strike_outside_grid_raises (fresh : PlayerState) (s : State) (x y : Int)
    (h : s.gameState = GameState.PLAYER_1_TURN)
    (hsq : SquareField s.size s.player.field)
    (hout : ¬ (0 ≤ x ∧ x < s.size ∧ 0 ≤ y ∧ y < s.size)) :
    handleAction fresh s x y = Except.error JsError.typeError := by
  apply handleAction_outside h fresh
  cases hcell : cellAt s.player.field x y with
  | none => rfl
  | some c =>
    exfalso
    apply hout
    rcases cellAt_eq_some.mp hcell with ⟨row, hrow, hc⟩
    rcases jsGet_eq_some.mp hrow with ⟨hx, hrow'⟩
    rcases jsGet_eq_some.mp hc with ⟨hy, hc'⟩
    rcases List.getElem?_eq_some_iff.mp hrow' with ⟨hxl, hxe⟩
    rcases List.getElem?_eq_some_iff.mp hc' with ⟨hyl, _⟩
    have hmem : row ∈ s.player.field := by
      rw [← hxe]
      exact List.getElem_mem hxl
    have h1 := hsq.1
    have h2 := hsq.2 row hmem
    omega

/-! ## Lives never grow during a game (C7) -/

/-- C7, as stated, fails on the strike that follows the end of a game: the ship
of `overOne` has life 0 before the strike and the ship list returned by
`handleAction` has a ship with life 1 in its place. -/
theorem life_grows_on_restart :
    overOne.player.ships = [⟨"carrier", 1, 0⟩] ∧
    (∃ s', handleAction freshOne overOne 3 7 = Except.ok s' ∧
      s'.player.ships = [⟨"carrier", 1, 1⟩]) := by
  refine ⟨by decide, ⟨_, rfl, by decide⟩⟩

/-- C7 (amended): a strike applied with `handleAction` to a running game
returns a ship list of the same length in which every ship has the type and
size it had and a life less than or equal to its life before the strike. -/
theorem life_monotone (fresh : PlayerState) (s s' : State) (x y : Int)
    (h : s.gameState = GameState.PLAYER_1_TURN)
    (hs' : handleAction fresh s x y = Except.ok s') :
    s'.player.ships.length = s.player.ships.length ∧
    ∀ (i : Nat) (sh : Ship), s.player.ships[i]? = some sh →
      ∃ sh', s'.player.ships[i]? = some sh' ∧
        sh'.type = sh.type ∧ sh'.size = sh.size ∧ sh'.life ≤ sh.life := by
  have same : s'.player.ships = s.player.ships →
      s'.player.ships.length = s.player.ships.length ∧
      ∀ (i : Nat) (sh : Ship), s.player.ships[i]? = some sh →
        ∃ sh', s'.player.ships[i]? = some sh' ∧
          sh'.type = sh.type ∧ sh'.size = sh.size ∧ sh'.life ≤ sh.life := by
    intro e
    rw [e]
    exact ⟨rfl, fun i sh hi => ⟨sh, hi, rfl, rfl, le_refl _⟩⟩
  cases hcell : cellAt s.player.field x y with
  | none =>
    rw [handleAction_outside h fresh hcell] at hs'
    cases hs'
  | some c =>
    cases hu : unstruck c with
    | false =>
      rw [handleAction_struck h fresh hcell hu] at hs'
      cases hs'
      exact same rfl
    | true =>
      by_cases hship : c.ship = -1
      · rw [handleAction_noShip h fresh hcell hu hship] at hs'
        cases hs'
        exact same rfl
      · cases hsh : jsGet s.player.ships c.ship with
        | none =>
          rw [handleAction_dangling h fresh hcell hu hship hsh] at hs'
          cases hs'
        | some t =>
          rw [handleAction_ship h fresh hcell hu hship hsh] at hs'
          cases hs'
          refine ⟨by simp, ?_⟩
          intro i sh hi
          simp only [List.getElem?_set]
          by_cases hik : c.ship.toNat = i
          · have hlt : c.ship.toNat < s.player.ships.length := by
              rw [hik]
              exact (List.getElem?_eq_some_iff.mp hi).1
            have ht : t = sh := by
              have := (jsGet_eq_some.mp hsh).2
              rw [hik, hi] at this
              exact (Option.some.inj this).symm
            subst ht
            rw [if_pos hik, if_pos hlt]
            exact ⟨_, rfl, rfl, rfl, by simp⟩
          · rw [if_neg hik]
            exact ⟨sh, hi, rfl, rfl, le_refl _⟩

/-- C7 (amended) on the scenario of the spec: the strike at (0,0). -/
theorem life_monotone_witness :
    scenarioHit.player.ships.length = scenario.player.ships.length ∧
    ∀ (i : Nat) (sh : Ship), scenario.player.ships[i]? = some sh →
      ∃ sh', scenarioHit.player.ships[i]? = some sh' ∧
        sh'.type = sh.type ∧ sh'.size = sh.size ∧ sh'.life ≤ sh.life :=
  life_monotone freshOne scenario scenarioHit 0 0 (by decide) (by decide)



/-! ## The strike that ends the game (C2) -/

/-- C2: along every sequence of strikes dispatched through `handleAction` from
a state returned by `reset` (phase `PLAYER_1_TURN`, layout meeting the
generator's contract with a ship of positive size; the same for the layouts
handed out on restarts), the state after a strike has phase `OVER` exactly when
that strike brings the last ship with life above 0 down to life 0, and phase
`PLAYER_1_TURN` after every other strike; every strike on a finished game or
at a position of the field returns a state. -/
theorem win_trigger_exact (s0 : State) (strikes : List Strike) (s : State) (a : Strike)
    (hp : s0.gameState = GameState.PLAYER_1_TURN)
    (h0 : GeneratorContract s0.player) (hs0 : HasShip s0.player)
    (hf : ∀ b ∈ strikes, GeneratorContract b.fresh ∧ HasShip b.fresh)
    (hrun : run s0 strikes = Except.ok s) :
    ((s.gameState = GameState.OVER ∨ (cellAt s.player.field a.x a.y).isSome = true) →
      ∃ s', handleAction a.fresh s a.x a.y = Except.ok s') ∧
    ∀ s', handleAction a.fresh s a.x a.y = Except.ok s' →
      (s'.gameState = GameState.OVER ↔ LastShipSunk s s') ∧
      (¬ LastShipSunk s s' → s'.gameState = GameState.PLAYER_1_TURN) := by
  have hb0 : Balanced s0 := by
    have := balanced_of_contract s0.size h0 hs0
    cases s0 with
    | mk size gs pl =>
      simp only at hp
      subst hp
      exact this
  have hb : Balanced s := balanced_run strikes hb0 hf hrun
  constructor
  · intro hin
    cases hph : s.gameState with
    | OVER => exact ⟨_, handleAction_over hph _ _ _⟩
    | PLAYER_1_TURN =>
      rcases hin with hin | hin
      · rw [hph] at hin; cases hin
      · cases hcell : cellAt s.player.field a.x a.y with
        | none => rw [hcell] at hin; cases hin
        | some c =>
          cases hu : unstruck c with
          | false => exact ⟨_, handleAction_struck hph _ hcell hu⟩
          | true =>
            by_cases hship : c.ship = -1
            · exact ⟨_, handleAction_noShip hph _ hcell hu hship⟩
            · rcases hb.2.1 a.x a.y c hcell hu with h1 | ⟨h1, h2⟩
              · exact absurd h1 hship
              · have hlt : c.ship.toNat < s.player.ships.length := by omega
                have hsh : jsGet s.player.ships c.ship =
                    some (s.player.ships[c.ship.toNat]) := by
                  rw [jsGet_eq_some]
                  exact ⟨h1, List.getElem?_eq_getElem hlt⟩
                exact ⟨_, handleAction_ship hph _ hcell hu hship hsh⟩
  · intro s' hs'
    have hiff := win_step hb hs'
    refine ⟨hiff, ?_⟩
    intro hn
    cases hg : s'.gameState with
    | PLAYER_1_TURN => rfl
    | OVER => exact absurd (hiff.mp hg) hn

/-- C2 on the scenario of the spec: after the strikes at (0,0) and (1,1), the strike at (0,1). -/
theorem win_trigger_exact_witness :
    ((scenarioMiss.gameState = GameState.OVER ∨
        (cellAt scenarioMiss.player.field 0 1).isSome = true) →
      ∃ s', handleAction freshOne scenarioMiss 0 1 = Except.ok s') ∧
    ∀ s', handleAction freshOne scenarioMiss 0 1 = Except.ok s' →
      (s'.gameState = GameState.OVER ↔ LastShipSunk scenarioMiss s') ∧
      (¬ LastShipSunk scenarioMiss s' → s'.gameState = GameState.PLAYER_1_TURN) :=
  win_trigger_exact scenario [⟨0, 0, freshOne⟩, ⟨1, 1, freshOne⟩] scenarioMiss
    ⟨0, 1, freshOne⟩ (by decide)
    ⟨ownCoords_of_check (by decide), by decide, by decide, by decide⟩
    ⟨⟨"submarine", 2, 2⟩, by decide, by decide⟩
    (fun b hb => by
      have hfresh : GeneratorContract freshOne ∧ HasShip freshOne :=
        ⟨⟨ownCoords_of_check (by decide), by decide, by decide, by decide⟩,
          ⟨⟨"carrier", 1, 1⟩, by decide, by decide⟩⟩
      simp only [List.mem_cons, List.mem_singleton, List.not_mem_nil, or_false] at hb
      rcases hb with rfl | rfl <;> exact hfresh)
    (by decide)

/-! ## Bounds of the lives (C8) -/

/-- C8, as stated, fails: the layout of `crowded` meets the generator's
contract (lives equal to sizes, three `SHIP` cells for sizes 2 and 1, one ship
index per cell), but the ship of size 1 has its index on two cells, and the
strikes at (0,0) and (0,1) bring its life to -1. -/
theorem life_below_zero_on_crowded_layout :
    GeneratorContract crowded.player ∧
    run crowded [⟨0, 0, freshOne⟩, ⟨0, 1, freshOne⟩] = Except.ok
      { size := 2, gameState := GameState.PLAYER_1_TURN,
        player :=
          { field := [[⟨0, 0, CellState.HIT, 1⟩, ⟨0, 1, CellState.HIT, 1⟩],
                      [⟨1, 0, CellState.SHIP, 0⟩, ⟨1, 1, CellState.EMPTY, -1⟩]],
            ships := [⟨"submarine", 2, 2⟩, ⟨"carrier", 1, -1⟩] } } :=
  ⟨⟨ownCoords_of_check (by decide), by decide, by decide, by decide⟩, by decide⟩

/-- C8 (amended): in every state reached by strikes from a state whose cells
store their own coordinates and in which every ship has its life equal to its
size and its index on exactly `size` unstruck cells (the same for the layouts
handed out on restarts), every ship satisfies `0 ≤ life ≤ size`. -/
theorem life_bounds (s0 : State) (strikes : List Strike) (s : State)
    (h0 : OwnCoords s0.player.field ∧ HullsMatch s0.player)
    (hf : ∀ a ∈ strikes, OwnCoords a.fresh.field ∧ HullsMatch a.fresh)
    (hrun : run s0 strikes = Except.ok s) :
    ∀ sh ∈ s.player.ships, 0 ≤ sh.life ∧ sh.life ≤ sh.size := by
  have hb := hullsTracked_run strikes (hullsTracked_of_match h0.1 h0.2) hf hrun
  intro sh hm
  rcases List.mem_iff_getElem?.mp hm with ⟨i, hi⟩
  rcases hb.2 i sh hi with ⟨h1, h2⟩
  refine ⟨?_, h2⟩
  rw [← h1]
  exact Int.ofNat_nonneg _


/-- C8 (amended) on the scenario of the spec: the three strikes that end the game. -/
theorem life_bounds_witness :
    run scenario [⟨0, 0, freshOne⟩, ⟨1, 1, freshOne⟩, ⟨0, 1, freshOne⟩] =
      Except.ok scenarioOver ∧
    ∀ sh ∈ scenarioOver.player.ships, 0 ≤ sh.life ∧ sh.life ≤ sh.size :=
  ⟨by decide,
    life_bounds scenario [⟨0, 0, freshOne⟩, ⟨1, 1, freshOne⟩, ⟨0, 1, freshOne⟩] scenarioOver
      ⟨ownCoords_of_check (by decide), by
        intro i sh h
        rcases i with _ | i
        · simp only [scenario, List.getElem?_cons_zero, Option.some.injEq] at h
          subst h
          decide
        · simp [scenario] at h⟩
      (fun a ha => by
        have hfresh : OwnCoords freshOne.field ∧ HullsMatch freshOne := by
          refine ⟨ownCoords_of_check (by decide), ?_⟩
          intro i sh h
          rcases i with _ | i
          · simp only [freshOne, List.getElem?_cons_zero, Option.some.injEq] at h
            subst h
            decide
          · simp [freshOne] at h
        simp only [List.mem_cons, List.mem_singleton, List.not_mem_nil, or_false] at ha
        rcases ha with rfl | rfl | rfl <;> exact hfresh)
      (by decide)⟩


/-! ## The cells handed to the renderer (C9, C10) -/

/-- C9: no cell returned by `getCells` is in state `EMPTY` or `SHIP`. -/
theorem getCells_hides_unstruck (field : Field) :
    ∀ c ∈ getCells field, c.state ≠ CellState.EMPTY ∧ c.state ≠ CellState.SHIP := by
  intro c hc
  have hs : struck c = true := (List.mem_filter.mp hc).2
  cases c with
  | mk x y st sh => cases st <;> simp [struck] at hs ⊢

/-- C9 on the scenario of the spec after its first strike. -/
theorem getCells_hides_unstruck_witness :
    (⟨0, 0, CellState.HIT, 0⟩ : Cell) ∈ getCells scenarioHit.player.field ∧
    (CellState.HIT ≠ CellState.EMPTY ∧ CellState.HIT ≠ CellState.SHIP) :=
  ⟨by decide,
    getCells_hides_unstruck scenarioHit.player.field ⟨0, 0, CellState.HIT, 0⟩ (by decide)⟩

/-- C10: `getCells` returns the row-by-row concatenation of the field filtered
to the cells whose state is `MISS` or `HIT` (`visibleStrikes`): it is a
subsequence of the row-major listing of the field, so the order is kept, and
it holds each cell of state `MISS` or `HIT` as many times as the field does. -/
theorem getCells_eq_visibleStrikes (field : Field) :
    getCells field = visibleStrikes field ∧
    (getCells field).Sublist field.flatten ∧
    ∀ c : Cell, (c.state = CellState.MISS ∨ c.state = CellState.HIT) →
      (getCells field).count c = field.flatten.count c := by
  refine ⟨?_, ?_, ?_⟩
  · unfold getCells
    induction field with
    | nil => rfl
    | cons row rest ih =>
      have hfun : (fun c : Cell =>
          decide (c.state = CellState.MISS ∨ c.state = CellState.HIT)) = struck := by
        funext c
        cases c with
        | mk x y st sh => cases st <;> rfl
      simp only [visibleStrikes, List.flatten_cons, List.filter_append, ih, hfun]
  · exact List.filter_sublist _
  · intro c hc
    unfold getCells
    have hs : struck c = true := by
      rcases hc with hc | hc <;> simp [struck, hc]
    rw [List.count_filter hs]



/-! ## The score (C11) -/

theorem foldl_score_eq (ships : List Ship) (acc : Int) :
    ships.foldl (fun acc ship => acc + (ship.size - ship.life)) acc = acc + score ships := by
  induction ships generalizing acc with
  | nil => simp [score]
  | cons hd tl ih =>
    rw [List.foldl_cons, ih]
    simp only [score, List.map_cons, List.sum_cons]
    omega

/-- C11: the first component of the result of `getScroes` is the sum over all
ships (of the component state it reads) of `size - life`, and the second
component is 0. -/
theorem getScroes_eq_score (self state : State) :
    getScroes self state = (score self.player.ships, 0) ∧
    (getScroes self state).1 = (self.player.ships.map (fun ship => ship.size - ship.life)).sum ∧
    (getScroes self state).2 = 0 := by
  have h : getScroes self state = (score self.player.ships, 0) := by
    unfold getScroes
    rw [foldl_score_eq]
    simp
  refine ⟨h, ?_, ?_⟩
  · rw [h]
    rfl
  · rw [h]

/-! ## A strike on a finished game (C13) -/

/-- C13: on a state whose game phase is `OVER`, for any action data the updater
of `handleAction` returns exactly what `reset` returns, the game phase
`PLAYER_1_TURN` with the layout that `genRandomField` hands out for
`FIELD_SIZE` and `shipsLayout`; the state after the action has that phase and
that layout, and the result is the same for any other coordinates and any
other finished game. -/
theorem strike_when_over_resets (genRandomField : Int → List ShipKind → PlayerState)
    (s : State) (x y : Int) (h : s.gameState = GameState.OVER) :
    updater (genRandomField FIELD_SIZE shipsLayout) s x y =
      Except.ok (some (reset (genRandomField FIELD_SIZE shipsLayout))) ∧
    handleAction (genRandomField FIELD_SIZE shipsLayout) s x y = Except.ok
      { size := s.size, gameState := GameState.PLAYER_1_TURN,
        player := genRandomField FIELD_SIZE shipsLayout } ∧
    ∀ (t : State) (x' y' : Int), t.gameState = GameState.OVER →
      updater (genRandomField FIELD_SIZE shipsLayout) t x' y' =
        updater (genRandomField FIELD_SIZE shipsLayout) s x y := by
  have hu : ∀ (t : State) (x' y' : Int), t.gameState = GameState.OVER →
      updater (genRandomField FIELD_SIZE shipsLayout) t x' y' =
        Except.ok (some (reset (genRandomField FIELD_SIZE shipsLayout))) := by
    intro t x' y' ht
    simp [updater, ht]
  refine ⟨hu s x y h, handleAction_over h _ _ _, ?_⟩
  intro t x' y' ht
  rw [hu t x' y' ht, hu s x y h]

/-- C13 on the finished one-cell game: the strike at (3,7), outside the field,
restarts the game with the layout handed out. -/
theorem strike_when_over_resets_witness :
    updater freshOne overOne 3 7 = Except.ok (some (reset freshOne)) ∧
    handleAction freshOne overOne 3 7 = Except.ok
      { size := 1, gameState := GameState.PLAYER_1_TURN, player := freshOne } ∧
    ∀ (t : State) (x' y' : Int), t.gameState = GameState.OVER →
      updater freshOne t x' y' = updater freshOne overOne 3 7 :=
  strike_when_over_resets (fun _ _ => freshOne) overOne 3 7 (by decide)



/-! ## The field after a strike (C18) -/

theorem updateCell_shape (field : Field) (x y : Int) (st : CellState) :
    (updateCell field x y st).map List.length = field.map List.length := by
  cases h : cellAt field x y with
  | none => rw [updateCell_eq_self h]
  | some c =>
    rcases cellAt_eq_some.mp h with ⟨row, hrow, hc⟩
    rw [updateCell_eq_set hrow hc]
    have hget := (jsGet_eq_some.mp hrow).2
    apply List.ext_getElem?
    intro n
    rw [List.getElem?_map, List.getElem?_map, List.getElem?_set]
    by_cases hn : x.toNat = n
    · subst hn
      have hlt : x.toNat < field.length := (List.getElem?_eq_some_iff.mp hget).1
      rw [if_pos rfl, if_pos hlt, hget]
      simp
    · rw [if_neg hn]

/-- The field of the state returned by a strike on an unstruck cell. -/
theorem strike_field {s s' : State} (h : s.gameState = GameState.PLAYER_1_TURN)
    {fresh : PlayerState} {x y : Int} {c : Cell}
    (hc : cellAt s.player.field x y = some c) (hu : unstruck c = true)
    (hs' : handleAction fresh s x y = Except.ok s') :
    s'.player.field = updateCell s.player.field c.x c.y (mark c) := by
  rcases handleAction_ok_cases h hs' with ⟨d, hd, hcase⟩
  rw [hc] at hd
  cases hd
  rcases hcase with ⟨hn, _⟩ | ⟨_, _, rfl⟩ | ⟨_, _, _, _, rfl⟩
  · rw [hu] at hn
    cases hn
  · rfl
  · rfl

/-- A strike at a cell of the field returns a state unless the cell is
unstruck and refers to a ship that is not in the list. -/
theorem strike_returns {s : State} (h : s.gameState = GameState.PLAYER_1_TURN)
    (fresh : PlayerState) {x y : Int} {c : Cell}
    (hc : cellAt s.player.field x y = some c)
    (hv : unstruck c = false ∨ c.ship = -1 ∨ (jsGet s.player.ships c.ship).isSome = true) :
    ∃ s', handleAction fresh s x y = Except.ok s' := by
  cases hu : unstruck c with
  | false => exact ⟨_, handleAction_struck h fresh hc hu⟩
  | true =>
    by_cases hship : c.ship = -1
    · exact ⟨_, handleAction_noShip h fresh hc hu hship⟩
    · rcases hv with hv | hv | hv
      · rw [hu] at hv
        cases hv
      · exact absurd hv hship
      · cases hsh : jsGet s.player.ships c.ship with
        | none => rw [hsh] at hv; cases hv
        | some sh => exact ⟨_, handleAction_ship h fresh hc hu hship hsh⟩

/-- C18: in a running game, for an in-range (x,y) whose cell `c` is unstruck,
the strike (which returns a state whenever `c` refers to no ship or to a ship
of the list) leaves every position other than `(c.x, c.y)` as it was and gives
the cell at `(c.x, c.y)`, if there is one, the state `mark c`.  When `c` stores
its own coordinates the cell at (x,y) becomes `c` with that state; when it
does not, the cell at (x,y) is still the unstruck `c`. -/
theorem struck_position_from_cell (fresh : PlayerState) (s : State) (x y : Int) (c : Cell)
    (h : s.gameState = GameState.PLAYER_1_TURN)
    (hc : cellAt s.player.field x y = some c)
    (hu : c.state = CellState.EMPTY ∨ c.state = CellState.SHIP) :
    ((c.ship = -1 ∨ (jsGet s.player.ships c.ship).isSome = true) →
      ∃ s', handleAction fresh s x y = Except.ok s') ∧
    ∀ s', handleAction fresh s x y = Except.ok s' →
      (∀ x' y' : Int, ¬ (x' = c.x ∧ y' = c.y) →
        cellAt s'.player.field x' y' = cellAt s.player.field x' y') ∧
      cellAt s'.player.field c.x c.y =
        (cellAt s.player.field c.x c.y).map (fun d => { d with state := mark c }) ∧
      ((c.x = x ∧ c.y = y) →
        cellAt s'.player.field x y = some { c with state := mark c }) ∧
      (¬ (c.x = x ∧ c.y = y) → cellAt s'.player.field x y = some c) := by
  have hu' : unstruck c = true := (unstruck_iff c).mpr hu
  constructor
  · intro hv
    exact strike_returns h fresh hc (Or.inr hv)
  · intro s' hs'
    have hf := strike_field h hc hu' hs'
    have hother : ∀ x' y' : Int, ¬ (x' = c.x ∧ y' = c.y) →
        cellAt s'.player.field x' y' = cellAt s.player.field x' y' := by
      intro x' y' hne
      rw [hf, cellAt_updateCell]
      cases cellAt s.player.field x' y' <;> simp [hne]
    refine ⟨hother, ?_, ?_, ?_⟩
    · rw [hf, cellAt_updateCell]
      cases cellAt s.player.field c.x c.y <;> simp
    · intro hown
      rw [hf, cellAt_updateCell, hc]
      simp [hown.1, hown.2]
    · intro hne
      rw [hother x y (fun e => hne ⟨e.1.symm, e.2.symm⟩), hc]

/-- C18 on `misplacedShip`: the cell at (0,0) stores (0,1); the strike at (0,0)
marks the cell at (0,1) and leaves the one at (0,0) unstruck. -/
theorem struck_position_from_cell_witness :
    (((0 : Int) = -1 ∨ (jsGet misplacedShip.player.ships 0).isSome = true) →
      ∃ s', handleAction freshOne misplacedShip 0 0 = Except.ok s') ∧
    ∀ s', handleAction freshOne misplacedShip 0 0 = Except.ok s' →
      (∀ x' y' : Int, ¬ (x' = 0 ∧ y' = 1) →
        cellAt s'.player.field x' y' = cellAt misplacedShip.player.field x' y') ∧
      cellAt s'.player.field 0 1 =
        (cellAt misplacedShip.player.field 0 1).map
          (fun d => { d with state := mark ⟨0, 1, CellState.SHIP, 0⟩ }) ∧
      (((0 : Int) = 0 ∧ (1 : Int) = 0) →
        cellAt s'.player.field 0 0 =
          some { (⟨0, 1, CellState.SHIP, 0⟩ : Cell) with
            state := mark ⟨0, 1, CellState.SHIP, 0⟩ }) ∧
      (¬ ((0 : Int) = 0 ∧ (1 : Int) = 0) →
        cellAt s'.player.field 0 0 = some ⟨0, 1, CellState.SHIP, 0⟩) :=
  struck_position_from_cell freshOne misplacedShip 0 0 ⟨0, 1, CellState.SHIP, 0⟩
    (by decide) (by decide) (by decide)



/-- The transitions of a strike of a running game whose looked-up cell stores
its own coordinates: the returned field has a cell exactly where the field had
one, each cell keeps its state or goes `EMPTY → MISS` or `SHIP → HIT`, and a
cell in state `MISS` or `HIT` keeps its state. -/
theorem cell_transitions (fresh : PlayerState) (s s' : State) (x y : Int)
    (h : s.gameState = GameState.PLAYER_1_TURN)
    (hown : ∀ c, cellAt s.player.field x y = some c → c.x = x ∧ c.y = y)
    (hs' : handleAction fresh s x y = Except.ok s') :
    ∀ x' y' : Int,
      (cellAt s'.player.field x' y' = none ↔ cellAt s.player.field x' y' = none) ∧
      ∀ d, cellAt s.player.field x' y' = some d →
        ∃ d', cellAt s'.player.field x' y' = some d' ∧
          (d'.state = d.state ∨
            (d.state = CellState.EMPTY ∧ d'.state = CellState.MISS) ∨
            (d.state = CellState.SHIP ∧ d'.state = CellState.HIT)) ∧
          ((d.state = CellState.MISS ∨ d.state = CellState.HIT) → d'.state = d.state) := by
  have same : s'.player.field = s.player.field →
      ∀ x' y' : Int,
        (cellAt s'.player.field x' y' = none ↔ cellAt s.player.field x' y' = none) ∧
        ∀ d, cellAt s.player.field x' y' = some d →
          ∃ d', cellAt s'.player.field x' y' = some d' ∧
            (d'.state = d.state ∨
              (d.state = CellState.EMPTY ∧ d'.state = CellState.MISS) ∨
              (d.state = CellState.SHIP ∧ d'.state = CellState.HIT)) ∧
            ((d.state = CellState.MISS ∨ d.state = CellState.HIT) → d'.state = d.state) := by
    intro e x' y'
    rw [e]
    exact ⟨Iff.rfl, fun d hd => ⟨d, hd, Or.inl rfl, fun _ => rfl⟩⟩
  rcases handleAction_ok_cases h hs' with ⟨c, hc, hcase⟩
  cases hu : unstruck c with
  | false =>
    rcases hcase with ⟨_, e⟩ | ⟨hn, _⟩ | ⟨hn, _⟩
    · exact same (by rw [e])
    · rw [hu] at hn; cases hn
    · rw [hu] at hn; cases hn
  | true =>
    have hf := strike_field h hc hu hs'
    have hxy := hown c hc
    intro x' y'
    rw [hf, cellAt_updateCell]
    constructor
    · cases cellAt s.player.field x' y' <;> simp
    · intro d hd
      rw [hd]
      by_cases hpos : x' = c.x ∧ y' = c.y
      · have hdc : d = c := by
          rw [hpos.1, hpos.2, hxy.1, hxy.2, hc] at hd
          exact (Option.some.inj hd).symm
        subst hdc
        refine ⟨{ d with state := mark d }, by simp [hpos], ?_, ?_⟩
        · rcases (unstruck_iff d).mp hu with he | he
          · exact Or.inr (Or.inl ⟨he, by simp [mark, he]⟩)
          · exact Or.inr (Or.inr ⟨he, by simp [mark, he]⟩)
        · intro hst
          rcases (unstruck_iff d).mp hu with he | he <;> rcases hst with hm | hm <;>
            rw [he] at hm <;> cases hm
      · exact ⟨d, by simp [hpos], Or.inl rfl, fun _ => rfl⟩

/-- The frame of a strike of a running game with looked-up cell `c`: the
returned field has the same number of rows and the same row lengths, every
cell at a position other than `(c.x, c.y)` is unchanged, and the cell at
`(c.x, c.y)` keeps its `x`, `y` and `ship`. -/
theorem strike_frame (fresh : PlayerState) (s s' : State) (x y : Int) (c : Cell)
    (h : s.gameState = GameState.PLAYER_1_TURN)
    (hc : cellAt s.player.field x y = some c)
    (hs' : handleAction fresh s x y = Except.ok s') :
    s'.player.field.length = s.player.field.length ∧
    s'.player.field.map List.length = s.player.field.map List.length ∧
    (∀ x' y' : Int, ¬ (x' = c.x ∧ y' = c.y) →
      cellAt s'.player.field x' y' = cellAt s.player.field x' y') ∧
    ((c.x = x ∧ c.y = y) → ∀ x' y' : Int, ¬ (x' = x ∧ y' = y) →
      cellAt s'.player.field x' y' = cellAt s.player.field x' y') ∧
    (∀ d, cellAt s.player.field c.x c.y = some d →
      ∃ d', cellAt s'.player.field c.x c.y = some d' ∧
        d'.x = d.x ∧ d'.y = d.y ∧ d'.ship = d.ship) := by
  have key : ∀ st : CellState,
      s'.player.field = updateCell s.player.field c.x c.y st ∨
        s'.player.field = s.player.field →
      s'.player.field.map List.length = s.player.field.map List.length ∧
      (∀ x' y' : Int, ¬ (x' = c.x ∧ y' = c.y) →
        cellAt s'.player.field x' y' = cellAt s.player.field x' y') ∧
      (∀ d, cellAt s.player.field c.x c.y = some d →
        ∃ d', cellAt s'.player.field c.x c.y = some d' ∧
          d'.x = d.x ∧ d'.y = d.y ∧ d'.ship = d.ship) := by
    intro st hf
    rcases hf with hf | hf
    · rw [hf]
      refine ⟨updateCell_shape _ _ _ _, ?_, ?_⟩
      · intro x' y' hne
        rw [cellAt_updateCell]
        cases cellAt s.player.field x' y' <;> simp [hne]
      · intro d hd
        rw [cellAt_updateCell, hd]
        exact ⟨{ d with state := st }, by simp, rfl, rfl, rfl⟩
    · rw [hf]
      exact ⟨rfl, fun _ _ _ => rfl, fun d hd => ⟨d, hd, rfl, rfl, rfl⟩⟩
  have hf : s'.player.field = updateCell s.player.field c.x c.y (mark c) ∨
      s'.player.field = s.player.field := by
    cases hu : unstruck c with
    | false =>
      rw [handleAction_struck h fresh hc hu] at hs'
      cases hs'
      exact Or.inr rfl
    | true => exact Or.inl (strike_field h hc hu hs')
  rcases key (mark c) hf with ⟨h1, h2, h3⟩
  refine ⟨?_, h1, h2, ?_, h3⟩
  · have := congrArg List.length h1
    simpa using this
  · intro hown x' y' hne
    apply h2
    rw [hown.1, hown.2]
    exact hne

/-! ## What a strike does to a labelled field -/

theorem sum_map_set (f : Ship → Int) (ships : List Ship) (i : Nat) (sh sh' : Ship)
    (h : ships[i]? = some sh) :
    ((ships.set i sh').map f).sum + f sh = (ships.map f).sum + f sh' := by
  induction ships generalizing i with
  | nil => simp at h
  | cons hd tl ih =>
    cases i with
    | zero =>
      simp at h
      subst h
      simp only [List.set_cons_zero, List.map_cons, List.sum_cons]
      omega
    | succ n =>
      simp at h
      have := ih n h
      simp only [List.set_cons_succ, List.map_cons, List.sum_cons]
      omega

theorem labelled_of_cells {p : PlayerState} (h : CellsLabelled p) : Labelled p := by
  intro x y c hc
  exact h c ((mem_flatten_iff_cellAt _ _).mpr ⟨x, y, hc⟩)

theorem labelled_updateCell {field : Field} {ships ships' : List Ship}
    (hl : Labelled { field := field, ships := ships })
    (hlen : ships'.length = ships.length) (x y : Int) (c : Cell) :
    Labelled { field := updateCell field x y (mark c), ships := ships' } := by
  intro x' y' d hd
  simp only at hd
  rw [cellAt_updateCell] at hd
  cases h0 : cellAt field x' y' with
  | none => rw [h0] at hd; simp at hd
  | some d0 =>
    rw [h0] at hd
    simp only [Option.map_some', Option.some.injEq] at hd
    by_cases hpos : x' = x ∧ y' = y
    · rw [if_pos hpos] at hd
      rw [← hd]
      constructor
      · intro hst
        simp only [mark] at hst
        split at hst <;> cases hst
      · intro hst
        simp only [mark] at hst
        split at hst <;> cases hst
    · rw [if_neg hpos] at hd
      rw [← hd]
      have := hl x' y' d0 h0
      simp only at this
      simp only [hlen]
      exact this

/-- The two ways a strike on an unstruck cell goes on a labelled field whose
cells store their coordinates: a miss on an `EMPTY` cell, which keeps the ship
list, or a hit on a `SHIP` cell, which lowers the life of its ship by 1.  In
both, the count of the cells that satisfy a test moves by the struck cell
only. -/
theorem strike_tally {s : State} (h : s.gameState = GameState.PLAYER_1_TURN)
    (hown : OwnCoords s.player.field) (hl : Labelled s.player)
    (fresh : PlayerState) {x y : Int} {c : Cell}
    (hc : cellAt s.player.field x y = some c) (hu : unstruck c = true) :
    ∃ s', handleAction fresh s x y = Except.ok s' ∧
      OwnCoords s'.player.field ∧ Labelled s'.player ∧
      s'.player.field = updateCell s.player.field x y (mark c) ∧
      (∀ p : Cell → Bool,
        countCells p s'.player.field + (if p c = true then 1 else 0) =
          countCells p s.player.field +
            (if p { c with state := mark c } = true then 1 else 0)) ∧
      ((c.state = CellState.EMPTY ∧ c.ship = -1 ∧ s'.player.ships = s.player.ships) ∨
       (c.state = CellState.SHIP ∧ 0 ≤ c.ship ∧
        ∃ sh, s.player.ships[c.ship.toNat]? = some sh ∧
          s'.player.ships = s.player.ships.set c.ship.toNat
            { sh with life := sh.life - 1 })) := by
  have hxy := hown x y c hc
  have hcnt : ∀ p : Cell → Bool,
      countCells p (updateCell s.player.field c.x c.y (mark c)) +
          (if p c = true then 1 else 0) =
        countCells p s.player.field +
          (if p { c with state := mark c } = true then 1 else 0) := by
    intro p
    exact @countCells_updateCell p s.player.field c.x c.y c
      (by rw [hxy.1, hxy.2]; exact hc) (mark c)
  have hfield : updateCell s.player.field c.x c.y (mark c) =
      updateCell s.player.field x y (mark c) := by rw [hxy.1, hxy.2]
  rcases (unstruck_iff c).mp hu with hst | hst
  · have hship : c.ship = -1 := (hl x y c hc).2 hst
    refine ⟨_, handleAction_noShip h fresh hc hu hship, ownCoords_updateCell hown _ _ _,
      ?_, hfield, hcnt, Or.inl ⟨hst, hship, rfl⟩⟩
    exact labelled_updateCell hl rfl c.x c.y c
  · have hv := (hl x y c hc).1 hst
    have hne : c.ship ≠ -1 := by omega
    have hlt : c.ship.toNat < s.player.ships.length := by omega
    have hget : s.player.ships[c.ship.toNat]? = some (s.player.ships[c.ship.toNat]) :=
      List.getElem?_eq_getElem hlt
    have hsh : jsGet s.player.ships c.ship = some (s.player.ships[c.ship.toNat]) :=
      jsGet_eq_some.mpr ⟨hv.1, hget⟩
    refine ⟨_, handleAction_ship h fresh hc hu hne hsh, ownCoords_updateCell hown _ _ _,
      ?_, hfield, hcnt, Or.inr ⟨hst, hv.1, _, hget, rfl⟩⟩
    exact labelled_updateCell hl (List.length_set _ _ _) c.x c.y c

/-- On a labelled field every strike at a cell of the field returns a state. -/
theorem labelled_strike_returns {s : State} (h : s.gameState = GameState.PLAYER_1_TURN)
    (hown : OwnCoords s.player.field) (hl : Labelled s.player)
    (fresh : PlayerState) {x y : Int} {c : Cell}
    (hc : cellAt s.player.field x y = some c) :
    ∃ s', handleAction fresh s x y = Except.ok s' := by
  cases hu : unstruck c with
  | false => exact ⟨_, handleAction_struck h fresh hc hu⟩
  | true =>
    rcases strike_tally h hown hl fresh hc hu with ⟨s', hs', _⟩
    exact ⟨s', hs'⟩



/-! ## The score along a game -/

theorem countCells_eq_zero (p : Cell → Bool) (field : Field)
    (h : ∀ c ∈ field.flatten, p c = false) : countCells p field = 0 := by
  unfold countCells
  rw [List.countP_eq_zero]
  intro c hc
  rw [h c hc]
  simp

theorem score_eq_zero (ships : List Ship) (h : ∀ sh ∈ ships, sh.life = sh.size) :
    score ships = 0 := by
  unfold score
  induction ships with
  | nil => rfl
  | cons hd tl ih =>
    have h1 := h hd (List.mem_cons_self _ _)
    have h2 := ih (fun sh hm => h sh (List.mem_cons_of_mem _ hm))
    simp only [List.map_cons, List.sum_cons]
    omega

theorem scored_of_contract {p : PlayerState} (hc : GeneratorContract p) : Scored p := by
  rcases hc with ⟨hown, hcells, hlife, _⟩
  refine ⟨hown, ?_, ?_⟩
  · apply labelled_of_cells
    intro c hm
    rcases hcells c hm with ⟨h0, h1, h2⟩ | ⟨h0, h1⟩
    · exact ⟨fun _ => ⟨h1, h2⟩, fun e => (by rw [h0] at e; cases e)⟩
    · exact ⟨fun e => (by rw [h0] at e; cases e), fun _ => h1⟩
  · rw [score_eq_zero _ hlife, countCells_eq_zero]
    · rfl
    · intro c hm
      rcases hcells c hm with ⟨h0, _⟩ | ⟨h0, _⟩ <;> simp [isHit, h0]

/-- A strike on an unstruck cell of a scored game: it returns a scored state,
with the score raised by 1 on a `SHIP` cell and unchanged on an `EMPTY` cell. -/
theorem scored_strike {s : State} (h : s.gameState = GameState.PLAYER_1_TURN)
    (hs : Scored s.player) (fresh : PlayerState) {x y : Int} {c : Cell}
    (hc : cellAt s.player.field x y = some c) (hu : unstruck c = true) :
    ∃ s', handleAction fresh s x y = Except.ok s' ∧ Scored s'.player ∧
      (c.state = CellState.SHIP → score s'.player.ships = score s.player.ships + 1) ∧
      (c.state = CellState.EMPTY → score s'.player.ships = score s.player.ships) := by
  rcases hs with ⟨hown, hl, hscore⟩
  rcases strike_tally h hown hl fresh hc hu with ⟨s', hs', hown', hl', _, hcnt, hcase⟩
  have hhit := hcnt isHit
  refine ⟨s', hs', ?_⟩
  rcases hcase with ⟨hst, _, hships⟩ | ⟨hst, _, sh, hget, hships⟩
  · have e1 : isHit c = false := by simp [isHit, hst]
    have e2 : isHit { c with state := mark c } = false := by simp [isHit, mark, hst]
    rw [e1, e2] at hhit
    simp only [Bool.false_eq_true, if_false, Nat.add_zero] at hhit
    have hsc : score s'.player.ships = score s.player.ships := by rw [hships]
    refine ⟨⟨hown', hl', ?_⟩, ?_, fun _ => hsc⟩
    · rw [hsc, hhit]
      exact hscore
    · intro e
      rw [hst] at e
      cases e
  · have e1 : isHit c = false := by simp [isHit, hst]
    have e2 : isHit { c with state := mark c } = true := by simp [isHit, mark, hst]
    rw [e1, e2] at hhit
    simp only [Bool.false_eq_true, if_false, if_true, Nat.add_zero] at hhit
    have hsum := sum_map_set (fun ship => ship.size - ship.life) s.player.ships
      c.ship.toNat sh { sh with life := sh.life - 1 } hget
    have hsc : score s'.player.ships = score s.player.ships + 1 := by
      rw [hships]
      unfold score
      simp only at hsum
      omega
    refine ⟨⟨hown', hl', ?_⟩, fun _ => hsc, ?_⟩
    · rw [hsc, hhit, hscore]
      push_cast
      rfl
    · intro e
      rw [hst] at e
      cases e

theorem scored_step {s s' : State} (hs : Scored s.player) {fresh : PlayerState}
    (hf : GeneratorContract fresh) {x y : Int}
    (hs' : handleAction fresh s x y = Except.ok s') : Scored s'.player := by
  cases hp : s.gameState with
  | OVER =>
    rw [handleAction_over hp] at hs'
    cases hs'
    exact scored_of_contract hf
  | PLAYER_1_TURN =>
    rcases handleAction_ok_cases hp hs' with ⟨c, hc, _⟩
    cases hu : unstruck c with
    | false =>
      rw [handleAction_struck hp fresh hc hu] at hs'
      cases hs'
      exact hs
    | true =>
      rcases scored_strike hp hs fresh hc hu with ⟨t, ht, hsc, _⟩
      rw [ht] at hs'
      cases hs'
      exact hsc

theorem scored_run {s0 s : State} (strikes : List Strike) (hs : Scored s0.player)
    (hf : ∀ a ∈ strikes, GeneratorContract a.fresh)
    (hrun : run s0 strikes = Except.ok s) : Scored s.player := by
  induction strikes generalizing s0 with
  | nil =>
    simp only [run] at hrun
    cases hrun
    exact hs
  | cons a rest ih =>
    simp only [run] at hrun
    cases hstep : handleAction a.fresh s0 a.x a.y with
    | error e => rw [hstep] at hrun; cases hrun
    | ok next =>
      rw [hstep] at hrun
      exact ih (scored_step hs (hf a (List.mem_cons_self _ _)) hstep)
        (fun b hb => hf b (List.mem_cons_of_mem _ hb)) hrun



/-! ## The bookkeeping of the lives along a game -/

theorem tallied_of_tidy {p : PlayerState} (hown : OwnCoords p.field) (ht : Tidy p) :
    TalliedInv p := by
  rcases ht with ⟨hcells, hships⟩
  refine ⟨hown, ?_, ?_⟩
  · apply labelled_of_cells
    intro c hm
    rcases hcells c hm with ⟨h0, h1⟩ | ⟨h0, h1, h2⟩
    · exact ⟨fun e => (by rw [h1] at e; cases e), fun _ => h0⟩
    · exact ⟨fun _ => ⟨h1, h2⟩, fun e => (by rw [h0] at e; cases e)⟩
  · intro i sh hi
    rcases hships i sh hi with ⟨h1, h2⟩
    have e1 : countCells (afloatOf i) p.field = countCells (ofShip i) p.field := by
      unfold countCells
      apply List.countP_congr
      intro c hm
      rcases hcells c hm with ⟨h0, _⟩ | ⟨h0, _⟩
      · have : ¬ (c.ship = (i : Int)) := by omega
        simp [afloatOf, ofShip, this]
      · simp [afloatOf, ofShip, h0]
    have e2 : countCells (hitOf i) p.field = 0 := by
      apply countCells_eq_zero
      intro c hm
      rcases hcells c hm with ⟨_, h0⟩ | ⟨h0, _⟩ <;> simp [hitOf, h0]
    rw [e1, e2, h2, h1]
    constructor
    · rfl
    · simp

theorem tallied_strike {s : State} (h : s.gameState = GameState.PLAYER_1_TURN)
    (ht : TalliedInv s.player) (fresh : PlayerState) {x y : Int} {c : Cell}
    (hc : cellAt s.player.field x y = some c) (hu : unstruck c = true) :
    ∃ s', handleAction fresh s x y = Except.ok s' ∧ TalliedInv s'.player := by
  rcases ht with ⟨hown, hl, htal⟩
  rcases strike_tally h hown hl fresh hc hu with ⟨s', hs', hown', hl', _, hcnt, hcase⟩
  refine ⟨s', hs', hown', hl', ?_⟩
  intro i sh' hi
  have ha := hcnt (afloatOf i)
  have hh := hcnt (hitOf i)
  rcases hcase with ⟨hst, hship, hships⟩ | ⟨hst, hnn, sh, hget, hships⟩
  · have e1 : afloatOf i c = false := by simp [afloatOf, hst]
    have e2 : afloatOf i { c with state := mark c } = false := by
      simp [afloatOf, mark, hst]
    have e3 : hitOf i c = false := by simp [hitOf, hst]
    have e4 : hitOf i { c with state := mark c } = false := by simp [hitOf, mark, hst]
    rw [e1, e2] at ha
    rw [e3, e4] at hh
    simp only [Bool.false_eq_true, if_false, Nat.add_zero] at ha hh
    rw [hships] at hi
    rw [ha, hh]
    exact htal i sh' hi
  · rw [hships, List.getElem?_set] at hi
    have hlt : c.ship.toNat < s.player.ships.length :=
      (List.getElem?_eq_some_iff.mp hget).1
    by_cases hk : c.ship.toNat = i
    · rw [if_pos hk, if_pos hlt] at hi
      have hci : c.ship = (i : Int) := by omega
      have e1 : afloatOf i c = true := by simp [afloatOf, hst, hci]
      have e2 : afloatOf i { c with state := mark c } = false := by
        simp [afloatOf, mark, hst]
      have e3 : hitOf i c = false := by simp [hitOf, hst]
      have e4 : hitOf i { c with state := mark c } = true := by
        simp [hitOf, mark, hst, hci]
      rw [e1, e2] at ha
      rw [e3, e4] at hh
      simp only [Bool.false_eq_true, if_false, if_true, Nat.add_zero] at ha hh
      rw [hk] at hget
      have h0 := htal i sh hget
      rw [← Option.some.inj hi]
      simp only
      omega
    · rw [if_neg hk] at hi
      have hci : ¬ (c.ship = (i : Int)) := by omega
      have e1 : afloatOf i c = false := by simp [afloatOf, hci]
      have e2 : afloatOf i { c with state := mark c } = false := by simp [afloatOf, hci]
      have e3 : hitOf i c = false := by simp [hitOf, hci]
      have e4 : hitOf i { c with state := mark c } = false := by simp [hitOf, hci]
      rw [e1, e2] at ha
      rw [e3, e4] at hh
      simp only [Bool.false_eq_true, if_false, Nat.add_zero] at ha hh
      rw [ha, hh]
      exact htal i sh' hi

theorem tallied_run {s0 s : State} (strikes : List Strike) (ht : TalliedInv s0.player)
    (hf : ∀ a ∈ strikes, OwnCoords a.fresh.field ∧ Tidy a.fresh)
    (hrun : run s0 strikes = Except.ok s) : TalliedInv s.player := by
  induction strikes generalizing s0 with
  | nil =>
    simp only [run] at hrun
    cases hrun
    exact ht
  | cons a rest ih =>
    simp only [run] at hrun
    cases hstep : handleAction a.fresh s0 a.x a.y with
    | error e => rw [hstep] at hrun; cases hrun
    | ok next =>
      rw [hstep] at hrun
      have hfa := hf a (List.mem_cons_self _ _)
      have hnext : TalliedInv next.player := by
        cases hp : s0.gameState with
        | OVER =>
          rw [handleAction_over hp] at hstep
          cases hstep
          exact tallied_of_tidy hfa.1 hfa.2
        | PLAYER_1_TURN =>
          rcases handleAction_ok_cases hp hstep with ⟨c, hc, _⟩
          cases hu : unstruck c with
          | false =>
            rw [handleAction_struck hp a.fresh hc hu] at hstep
            cases hstep
            exact ht
          | true =>
            rcases tallied_strike hp ht a.fresh hc hu with ⟨t, ht', hinv⟩
            rw [ht'] at hstep
            cases hstep
            exact hinv
      exact ih hnext (fun b hb => hf b (List.mem_cons_of_mem _ hb)) hrun



/-! ## Ships afloat and the end of the game -/

theorem afloat_of_shape {p : PlayerState} (hs : ShipShape p) (hl : CellsLabelled p) :
    Afloat p := by
  rcases hs with ⟨_, hships, hown⟩
  refine ⟨hown, labelled_of_cells hl, ?_⟩
  intro i sh hi
  rcases hships i sh hi with ⟨h1, h2⟩
  rw [h2, h1]

theorem afloat_strike {s : State} (h : s.gameState = GameState.PLAYER_1_TURN)
    (ha : Afloat s.player) (fresh : PlayerState) {x y : Int} {c : Cell}
    (hc : cellAt s.player.field x y = some c) (hu : unstruck c = true) :
    ∃ s', handleAction fresh s x y = Except.ok s' ∧ Afloat s'.player := by
  rcases ha with ⟨hown, hl, hlife⟩
  rcases strike_tally h hown hl fresh hc hu with ⟨s', hs', hown', hl', _, hcnt, hcase⟩
  refine ⟨s', hs', hown', hl', ?_⟩
  intro i sh' hi
  have hcount := hcnt (afloatOf i)
  rcases hcase with ⟨hst, hship, hships⟩ | ⟨hst, hnn, sh, hget, hships⟩
  · have e1 : afloatOf i c = false := by simp [afloatOf, hst]
    have e2 : afloatOf i { c with state := mark c } = false := by
      simp [afloatOf, mark, hst]
    rw [e1, e2] at hcount
    simp only [Bool.false_eq_true, if_false, Nat.add_zero] at hcount
    rw [hships] at hi
    rw [hcount]
    exact hlife i sh' hi
  · rw [hships, List.getElem?_set] at hi
    have hlt : c.ship.toNat < s.player.ships.length :=
      (List.getElem?_eq_some_iff.mp hget).1
    have e2 : afloatOf i { c with state := mark c } = false := by
      simp [afloatOf, mark, hst]
    by_cases hk : c.ship.toNat = i
    · rw [if_pos hk, if_pos hlt] at hi
      have hci : c.ship = (i : Int) := by omega
      have e1 : afloatOf i c = true := by simp [afloatOf, hst, hci]
      rw [e1, e2] at hcount
      simp only [Bool.false_eq_true, if_false, if_true, Nat.add_zero] at hcount
      rw [hk] at hget
      have h0 := hlife i sh hget
      rw [← Option.some.inj hi]
      simp only
      omega
    · rw [if_neg hk] at hi
      have hci : ¬ (c.ship = (i : Int)) := by omega
      have e1 : afloatOf i c = false := by simp [afloatOf, hci]
      rw [e1, e2] at hcount
      simp only [Bool.false_eq_true, if_false, Nat.add_zero] at hcount
      rw [hcount]
      exact hlife i sh' hi

theorem afloat_run {s0 s : State} (strikes : List Strike) (ha : Afloat s0.player)
    (hf : ∀ a ∈ strikes, ShipShape a.fresh ∧ CellsLabelled a.fresh)
    (hrun : run s0 strikes = Except.ok s) : Afloat s.player := by
  induction strikes generalizing s0 with
  | nil =>
    simp only [run] at hrun
    cases hrun
    exact ha
  | cons a rest ih =>
    simp only [run] at hrun
    cases hstep : handleAction a.fresh s0 a.x a.y with
    | error e => rw [hstep] at hrun; cases hrun
    | ok next =>
      rw [hstep] at hrun
      have hfa := hf a (List.mem_cons_self _ _)
      have hnext : Afloat next.player := by
        cases hp : s0.gameState with
        | OVER =>
          rw [handleAction_over hp] at hstep
          cases hstep
          exact afloat_of_shape hfa.1 hfa.2
        | PLAYER_1_TURN =>
          rcases handleAction_ok_cases hp hstep with ⟨c, hc, _⟩
          cases hu : unstruck c with
          | false =>
            rw [handleAction_struck hp a.fresh hc hu] at hstep
            cases hstep
            exact ha
          | true =>
            rcases afloat_strike hp ha a.fresh hc hu with ⟨t, ht', hinv⟩
            rw [ht'] at hstep
            cases hstep
            exact hinv
      exact ih hnext (fun b hb => hf b (List.mem_cons_of_mem _ hb)) hrun

/-- With the lives tied to the `SHIP` cells, all ships are sunk exactly when no
cell of the field is in state `SHIP`. -/
theorem afloat_sunk_iff {p : PlayerState} (ha : Afloat p) :
    (∀ sh ∈ p.ships, sh.life = 0) ↔ ∀ d ∈ p.field.flatten, d.state ≠ CellState.SHIP := by
  rcases ha with ⟨_, hl, hlife⟩
  constructor
  · intro hall d hd hst
    rcases (mem_flatten_iff_cellAt _ _).mp hd with ⟨x, y, hcell⟩
    have hv := (hl x y d hcell).1 hst
    have hlt : d.ship.toNat < p.ships.length := by omega
    have hget : p.ships[d.ship.toNat]? = some (p.ships[d.ship.toNat]) :=
      List.getElem?_eq_getElem hlt
    have h1 := hlife _ _ hget
    have h2 := hall _ (List.getElem_mem hlt)
    have hpos : 0 < countCells (afloatOf d.ship.toNat) p.field := by
      unfold countCells
      rw [List.countP_pos_iff]
      refine ⟨d, hd, ?_⟩
      have : d.ship = ((d.ship.toNat : Nat) : Int) := by omega
      simp only [afloatOf, Bool.and_eq_true, beq_iff_eq]
      exact ⟨this, hst⟩
    omega
  · intro hnone sh hm
    rcases List.mem_iff_getElem?.mp hm with ⟨i, hi⟩
    have h1 := hlife i sh hi
    have h0 : countCells (afloatOf i) p.field = 0 := by
      apply countCells_eq_zero
      intro c hc
      have := hnone c hc
      simp [afloatOf, this]
    rw [h0] at h1
    simpa using h1

/-- The phase returned by a strike on an unstruck cell. -/
theorem strike_phase {s s' : State} (h : s.gameState = GameState.PLAYER_1_TURN)
    {fresh : PlayerState} {x y : Int} {c : Cell}
    (hc : cellAt s.player.field x y = some c) (hu : unstruck c = true)
    (hs' : handleAction fresh s x y = Except.ok s') :
    s'.gameState = GameState.OVER ↔ ∀ sh ∈ s'.player.ships, sh.life = 0 := by
  rcases handleAction_ok_cases h hs' with ⟨d, hd, hcase⟩
  rw [hc] at hd
  cases hd
  rcases hcase with ⟨hn, _⟩ | ⟨_, _, rfl⟩ | ⟨_, _, _, _, rfl⟩
  · rw [hu] at hn
    cases hn
  · exact phase_eq_over_iff _
  · exact phase_eq_over_iff _



/-! ## Progress of a game -/

theorem getCells_length (field : Field) :
    (getCells field).length = countCells struck field := by
  unfold getCells countCells
  rw [List.countP_eq_length_filter]

theorem flatten_length_grid (field : Field) (cols : Nat)
    (h : ∀ row ∈ field, row.length = cols) :
    field.flatten.length = field.length * cols := by
  induction field with
  | nil => simp
  | cons row rest ih =>
    have h1 := h row (List.mem_cons_self _ _)
    have h2 := ih (fun r hr => h r (List.mem_cons_of_mem _ hr))
    simp only [List.flatten_cons, List.length_append, List.length_cons, h1, h2]
    rw [Nat.add_mul, Nat.one_mul, Nat.add_comm]

/-- A strike on an unstruck cell that stores its coordinates strikes one more
cell. -/
theorem strike_progress {s s' : State} (h : s.gameState = GameState.PLAYER_1_TURN)
    (hown : OwnCoords s.player.field) {fresh : PlayerState} {x y : Int} {c : Cell}
    (hc : cellAt s.player.field x y = some c) (hu : unstruck c = true)
    (hs' : handleAction fresh s x y = Except.ok s') :
    OwnCoords s'.player.field ∧
    countCells struck s'.player.field = countCells struck s.player.field + 1 ∧
    countCells unstruck s'.player.field + 1 = countCells unstruck s.player.field := by
  have hf := strike_field h hc hu hs'
  have hxy := hown x y c hc
  have hcnt : ∀ p : Cell → Bool,
      countCells p s'.player.field + (if p c = true then 1 else 0) =
        countCells p s.player.field +
          (if p { c with state := mark c } = true then 1 else 0) := by
    intro p
    rw [hf]
    exact @countCells_updateCell p s.player.field c.x c.y c
      (by rw [hxy.1, hxy.2]; exact hc) (mark c)
  have e1 : struck c = false := by
    cases hst : struck c with
    | false => rfl
    | true =>
      rw [(struck_iff_not_unstruck c).mp hst] at hu
      cases hu
  have e2 : unstruck { c with state := mark c } = false := unstruck_marked c
  have e3 : struck { c with state := mark c } = true :=
    (struck_iff_not_unstruck _).mpr e2
  have h1 := hcnt struck
  have h2 := hcnt unstruck
  rw [e1, e3] at h1
  rw [hu, e2] at h2
  simp only [Bool.false_eq_true, if_false, if_true, Nat.add_zero] at h1 h2
  refine ⟨?_, h1, h2⟩
  rw [hf]
  exact ownCoords_updateCell hown _ _ _

theorem changes_le_unstruck (s : State) (strikes : List Strike)
    (hown : OwnCoords s.player.field) :
    changes s strikes ≤ countCells unstruck s.player.field := by
  induction strikes generalizing s with
  | nil => simp [changes]
  | cons a rest ih =>
    cases hp : s.gameState with
    | OVER => simp [changes, hp]
    | PLAYER_1_TURN =>
      cases hstep : handleAction a.fresh s a.x a.y with
      | error e =>
        simp only [changes, hp, hstep]
        exact ih s hown
      | ok next =>
        simp only [changes, hp, hstep]
        by_cases hsame : next = s
        · rw [if_pos hsame, hsame, Nat.zero_add]
          exact ih s hown
        · rw [if_neg hsame]
          rcases handleAction_ok_cases hp hstep with ⟨c, hc, _⟩
          cases hu : unstruck c with
          | false =>
            rw [handleAction_struck hp a.fresh hc hu] at hstep
            cases hstep
            exact absurd rfl hsame
          | true =>
            rcases strike_progress hp hown hc hu hstep with ⟨hown', _, hless⟩
            have := ih next hown'
            omega




/-! ## The score counts the hits (C12) -/

theorem ships_forall_of_enum {P : Nat → Ship → Prop} (ships : List Ship)
    (h : ∀ q ∈ ships.enum, P q.1 q.2) :
    ∀ (i : Nat) (sh : Ship), ships[i]? = some sh → P i sh :=
  fun i sh hi => h (i, sh) (List.mk_mem_enum_iff_getElem?.mpr hi)

/-- C12: in every state reached by strikes from a layout that meets the
generator's contract (the same for the layouts handed out on restarts), the
score, which is what `getScroes` computes, equals the number of cells of the
field in state `HIT`; in a running game a strike on a `SHIP` cell returns a
state whose score is higher by exactly 1 and a strike on an `EMPTY` cell one
whose score is unchanged. -/
theorem score_counts_hits (s0 : State) (strikes : List Strike) (s : State)
    (h0 : GeneratorContract s0.player)
    (hf : ∀ b ∈ strikes, GeneratorContract b.fresh)
    (hrun : run s0 strikes = Except.ok s) :
    score s.player.ships = (countCells isHit s.player.field : Int) ∧
    (getScroes s s).1 = (countCells isHit s.player.field : Int) ∧
    ∀ (fresh : PlayerState) (x y : Int) (c : Cell),
      s.gameState = GameState.PLAYER_1_TURN → cellAt s.player.field x y = some c →
      (c.state = CellState.SHIP →
        ∃ s', handleAction fresh s x y = Except.ok s' ∧
          score s'.player.ships = score s.player.ships + 1) ∧
      (c.state = CellState.EMPTY →
        ∃ s', handleAction fresh s x y = Except.ok s' ∧
          score s'.player.ships = score s.player.ships) := by
  have hs : Scored s.player := scored_run strikes (scored_of_contract h0) hf hrun
  refine ⟨hs.2.2, ?_, ?_⟩
  · unfold getScroes
    rw [foldl_score_eq]
    simp only [zero_add]
    exact hs.2.2
  · intro fresh x y c hp hc
    constructor
    · intro hst
      have hu : unstruck c = true := by simp [unstruck, hst]
      rcases scored_strike hp hs fresh hc hu with ⟨s', hs', _, h1, _⟩
      exact ⟨s', hs', h1 hst⟩
    · intro hst
      have hu : unstruck c = true := by simp [unstruck, hst]
      rcases scored_strike hp hs fresh hc hu with ⟨s', hs', _, _, h2⟩
      exact ⟨s', hs', h2 hst⟩

/-- C12 on the scenario of the spec: after the strikes at (0,0), (1,1) and
(0,1) the score is 2, the number of `HIT` cells. -/
theorem score_counts_hits_witness :
    score scenarioOver.player.ships = 2 ∧
    (score scenarioOver.player.ships = (countCells isHit scenarioOver.player.field : Int) ∧
    (getScroes scenarioOver scenarioOver).1 =
      (countCells isHit scenarioOver.player.field : Int) ∧
    ∀ (fresh : PlayerState) (x y : Int) (c : Cell),
      scenarioOver.gameState = GameState.PLAYER_1_TURN →
      cellAt scenarioOver.player.field x y = some c →
      (c.state = CellState.SHIP →
        ∃ s', handleAction fresh scenarioOver x y = Except.ok s' ∧
          score s'.player.ships = score scenarioOver.player.ships + 1) ∧
      (c.state = CellState.EMPTY →
        ∃ s', handleAction fresh scenarioOver x y = Except.ok s' ∧
          score s'.player.ships = score scenarioOver.player.ships)) :=
  ⟨by decide,
    score_counts_hits scenario [⟨0, 0, freshOne⟩, ⟨1, 1, freshOne⟩, ⟨0, 1, freshOne⟩]
      scenarioOver
      ⟨ownCoords_of_check (by decide), by decide, by decide, by decide⟩
      (fun b hb => by
        have hfresh : GeneratorContract freshOne :=
          ⟨ownCoords_of_check (by decide), by decide, by decide, by decide⟩
        simp only [List.mem_cons, List.mem_singleton, List.not_mem_nil, or_false] at hb
        rcases hb with rfl | rfl | rfl <;> exact hfresh)
      (by decide)⟩

/-! ## The bookkeeping of the lives (C16) -/

/-- C16, as stated, fails when a cell stores the coordinates of another cell:
the layout of `echoed` is tidy (each cell `EMPTY` with -1 or `SHIP` with a valid
index, each ship with life = size = number of cells with its index), but its
`SHIP` cell at (0,0) stores (0,1).  Two strikes at (0,0), both on a running
game, bring the life of ship 0 to 0 while one cell with index 0 is still in
state `SHIP` and only one is in state `HIT`. -/
theorem bookkeeping_breaks_on_foreign_coords :
    echoed.gameState = GameState.PLAYER_1_TURN ∧ Tidy echoed.player ∧
    handleAction freshOne echoed 0 0 = Except.ok
      { size := 2, gameState := GameState.PLAYER_1_TURN,
        player :=
          { field := [[⟨0, 1, CellState.SHIP, 0⟩, ⟨0, 1, CellState.HIT, 0⟩],
                      [⟨1, 0, CellState.SHIP, 1⟩, ⟨1, 1, CellState.EMPTY, -1⟩]],
            ships := [⟨"submarine", 2, 1⟩, ⟨"carrier", 1, 1⟩] } } ∧
    run echoed [⟨0, 0, freshOne⟩, ⟨0, 0, freshOne⟩] = Except.ok
      { size := 2, gameState := GameState.PLAYER_1_TURN,
        player :=
          { field := [[⟨0, 1, CellState.SHIP, 0⟩, ⟨0, 1, CellState.HIT, 0⟩],
                      [⟨1, 0, CellState.SHIP, 1⟩, ⟨1, 1, CellState.EMPTY, -1⟩]],
            ships := [⟨"submarine", 2, 0⟩, ⟨"carrier", 1, 1⟩] } } :=
  ⟨by decide, ⟨by decide, ships_forall_of_enum _ (by decide)⟩, by decide, by decide⟩

/-- C16 (amended): if in the starting layout every cell stores its own
coordinates, every cell either has `ship` -1 and state `EMPTY` or has state
`SHIP` and the index of a ship of the list, and each ship has life = size =
number of cells with its index (the same for the layouts handed out on
restarts), then after any sequence of strikes the life of each ship is the
number of cells with its index in state `SHIP`, and `size - life` is the number
of cells with its index in state `HIT`. -/
theorem life_bookkeeping (s0 : State) (strikes : List Strike) (s : State)
    (hown : OwnCoords s0.player.field) (h0 : Tidy s0.player)
    (hf : ∀ a ∈ strikes, OwnCoords a.fresh.field ∧ Tidy a.fresh)
    (hrun : run s0 strikes = Except.ok s) :
    ∀ (i : Nat) (sh : Ship), s.player.ships[i]? = some sh →
      sh.life = (countCells (afloatOf i) s.player.field : Int) ∧
      sh.size - sh.life = (countCells (hitOf i) s.player.field : Int) :=
  (tallied_run strikes (tallied_of_tidy hown h0) hf hrun).2.2

/-- C16 (amended) on the scenario of the spec: after the strikes at (0,0) and
(1,1) the ship has life 1, one cell in state `SHIP` and one in state `HIT`. -/
theorem life_bookkeeping_witness :
    scenarioMiss.player.ships[0]? = some ⟨"submarine", 2, 1⟩ ∧
    ((1 : Int) = (countCells (afloatOf 0) scenarioMiss.player.field : Int) ∧
      (2 : Int) - 1 = (countCells (hitOf 0) scenarioMiss.player.field : Int)) :=
  ⟨by decide,
    life_bookkeeping scenario [⟨0, 0, scenario.player⟩, ⟨1, 1, scenario.player⟩]
      scenarioMiss
      (ownCoords_of_check (by decide))
      ⟨by decide, ships_forall_of_enum _ (by decide)⟩
      (fun a ha => by
        have hfresh : OwnCoords scenario.player.field ∧ Tidy scenario.player :=
          ⟨ownCoords_of_check (by decide), by decide, ships_forall_of_enum _ (by decide)⟩
        simp only [List.mem_cons, List.mem_singleton, List.not_mem_nil, or_false] at ha
        rcases ha with rfl | rfl <;> exact hfresh)
      (by decide) 0 ⟨"submarine", 2, 1⟩ (by decide)⟩

/-! ## Game over and the `SHIP` cells (C17) -/

/-- C17, as stated, fails in two ways on layouts that are well-formed in the
sense of the claim (ship list not empty, life = size = number of `SHIP` cells of
the ship, cells storing their coordinates).  In `strayShip` a `SHIP` cell
carries no ship index: the strike at (0,0) ends the game while the cell at (0,1)
is still in state `SHIP`.  In `strayIndex` an `EMPTY` cell carries the index of
the ship: the strike at (0,1) ends the game while the cell at (0,0) is still in
state `SHIP`. -/
theorem game_over_with_ship_cell_left :
    (ShipShape strayShip.player ∧ strayShip.gameState = GameState.PLAYER_1_TURN ∧
      cellAt strayShip.player.field 0 0 = some ⟨0, 0, CellState.SHIP, 0⟩ ∧
      handleAction freshOne strayShip 0 0 = Except.ok
        { size := 2, gameState := GameState.OVER,
          player :=
            { field := [[⟨0, 0, CellState.HIT, 0⟩, ⟨0, 1, CellState.SHIP, -1⟩],
                        [⟨1, 0, CellState.EMPTY, -1⟩, ⟨1, 1, CellState.EMPTY, -1⟩]],
              ships := [⟨"carrier", 1, 0⟩] } }) ∧
    (ShipShape strayIndex.player ∧ strayIndex.gameState = GameState.PLAYER_1_TURN ∧
      cellAt strayIndex.player.field 0 1 = some ⟨0, 1, CellState.EMPTY, 0⟩ ∧
      handleAction freshOne strayIndex 0 1 = Except.ok
        { size := 2, gameState := GameState.OVER,
          player :=
            { field := [[⟨0, 0, CellState.SHIP, 0⟩, ⟨0, 1, CellState.MISS, 0⟩],
                        [⟨1, 0, CellState.EMPTY, -1⟩, ⟨1, 1, CellState.EMPTY, -1⟩]],
              ships := [⟨"carrier", 1, 0⟩] } }) :=
  ⟨⟨⟨by decide, ships_forall_of_enum _ (by decide), ownCoords_of_check (by decide)⟩,
      by decide, by decide, by decide⟩,
    ⟨⟨by decide, ships_forall_of_enum _ (by decide), ownCoords_of_check (by decide)⟩,
      by decide, by decide, by decide⟩⟩

/-- C17 (amended): from a well-formed starting layout (ship list not empty, each
ship with life = size = number of `SHIP` cells with its index, cells storing
their own coordinates) in which moreover every `SHIP` cell carries the index of
a ship of the list and every `EMPTY` cell carries -1 (the same for the layouts
handed out on restarts), every effective strike, that is, every strike of a
running game on an unstruck cell, returns a state whose game phase is `OVER` if
and only if its field has no cell in state `SHIP`. -/
theorem over_iff_no_ship_cell (s0 : State) (strikes : List Strike) (s : State)
    (fresh : PlayerState) (x y : Int) (c : Cell)
    (h0 : ShipShape s0.player ∧ CellsLabelled s0.player)
    (hf : ∀ b ∈ strikes, ShipShape b.fresh ∧ CellsLabelled b.fresh)
    (hrun : run s0 strikes = Except.ok s)
    (hp : s.gameState = GameState.PLAYER_1_TURN)
    (hc : cellAt s.player.field x y = some c)
    (hu : c.state = CellState.EMPTY ∨ c.state = CellState.SHIP) :
    ∃ s', handleAction fresh s x y = Except.ok s' ∧
      (s'.gameState = GameState.OVER ↔
        ∀ d ∈ s'.player.field.flatten, d.state ≠ CellState.SHIP) := by
  have ha : Afloat s.player := afloat_run strikes (afloat_of_shape h0.1 h0.2) hf hrun
  have hu' : unstruck c = true := (unstruck_iff c).mpr hu
  rcases afloat_strike hp ha fresh hc hu' with ⟨s', hs', ha'⟩
  refine ⟨s', hs', ?_⟩
  rw [strike_phase hp hc hu' hs']
  exact afloat_sunk_iff ha'

/-- C17 (amended) on the scenario of the spec: after the strikes at (0,0) and
(1,1), the strike at (0,1). -/
theorem over_iff_no_ship_cell_witness :
    ∃ s', handleAction freshOne scenarioMiss 0 1 = Except.ok s' ∧
      (s'.gameState = GameState.OVER ↔
        ∀ d ∈ s'.player.field.flatten, d.state ≠ CellState.SHIP) :=
  over_iff_no_ship_cell scenario [⟨0, 0, freshOne⟩, ⟨1, 1, freshOne⟩] scenarioMiss
    freshOne 0 1 ⟨0, 1, CellState.SHIP, 0⟩
    ⟨⟨by decide, ships_forall_of_enum _ (by decide), ownCoords_of_check (by decide)⟩,
      by decide⟩
    (fun b hb => by
      have hfresh : ShipShape freshOne ∧ CellsLabelled freshOne :=
        ⟨⟨by decide, ships_forall_of_enum _ (by decide), ownCoords_of_check (by decide)⟩,
          by decide⟩
      simp only [List.mem_cons, List.mem_singleton, List.not_mem_nil, or_false] at hb
      rcases hb with rfl | rfl <;> exact hfresh)
    (by decide) (by decide) (by decide) (by decide)

/-! ## The progress of a game (C19) -/

/-- C19: in a running game whose cells store their own coordinates, a strike at
an in-range (x,y) on an unstruck cell (which returns a state whenever the cell
refers to no ship or to a ship of the list) returns a field with exactly one
more struck cell (the length of `getCells`) and exactly one less cell in state
`EMPTY` or `SHIP`; hence the strikes that change the state before a restart are
at most as many as the unstruck cells, at most as many as the cells of the
field, and at most `rows × columns` on a grid. -/
theorem strike_progress_measure (fresh : PlayerState) (s : State) (x y : Int) (c : Cell)
    (h : s.gameState = GameState.PLAYER_1_TURN)
    (hown : OwnCoords s.player.field)
    (hc : cellAt s.player.field x y = some c)
    (hu : c.state = CellState.EMPTY ∨ c.state = CellState.SHIP) :
    ((c.ship = -1 ∨ (jsGet s.player.ships c.ship).isSome = true) →
      ∃ s', handleAction fresh s x y = Except.ok s') ∧
    (∀ s', handleAction fresh s x y = Except.ok s' →
      (getCells s'.player.field).length = (getCells s.player.field).length + 1 ∧
      countCells unstruck s'.player.field + 1 = countCells unstruck s.player.field) ∧
    (∀ strikes : List Strike,
      changes s strikes ≤ countCells unstruck s.player.field ∧
      changes s strikes ≤ s.player.field.flatten.length) ∧
    (∀ (rows cols : Nat), s.player.field.length = rows →
      (∀ row ∈ s.player.field, row.length = cols) →
      ∀ strikes : List Strike, changes s strikes ≤ rows * cols) := by
  have hu' : unstruck c = true := (unstruck_iff c).mpr hu
  have hle : countCells unstruck s.player.field ≤ s.player.field.flatten.length := by
    unfold countCells
    exact List.countP_le_length _
  refine ⟨fun hv => strike_returns h fresh hc (Or.inr hv), ?_, ?_, ?_⟩
  · intro s' hs'
    rcases strike_progress h hown hc hu' hs' with ⟨_, h1, h2⟩
    rw [getCells_length, getCells_length]
    exact ⟨h1, h2⟩
  · intro strikes
    have := changes_le_unstruck s strikes hown
    exact ⟨this, le_trans this hle⟩
  · intro rows cols hrows hcols strikes
    have h1 := changes_le_unstruck s strikes hown
    have h2 := flatten_length_grid s.player.field cols hcols
    rw [hrows] at h2
    omega

/-- C19 on the scenario of the spec: the strike at (0,0) on the 2 × 2 grid. -/
theorem strike_progress_measure_witness :
    (((0 : Int) = -1 ∨ (jsGet scenario.player.ships 0).isSome = true) →
      ∃ s', handleAction freshOne scenario 0 0 = Except.ok s') ∧
    (∀ s', handleAction freshOne scenario 0 0 = Except.ok s' →
      (getCells s'.player.field).length = (getCells scenario.player.field).length + 1 ∧
      countCells unstruck s'.player.field + 1 = countCells unstruck scenario.player.field) ∧
    (∀ strikes : List Strike,
      changes scenario strikes ≤ countCells unstruck scenario.player.field ∧
      changes scenario strikes ≤ scenario.player.field.flatten.length) ∧
    (∀ (rows cols : Nat), scenario.player.field.length = rows →
      (∀ row ∈ scenario.player.field, row.length = cols) →
      ∀ strikes : List Strike, changes scenario strikes ≤ rows * cols) :=
  strike_progress_measure freshOne scenario 0 0 ⟨0, 0, CellState.SHIP, 0⟩
    (by decide) (ownCoords_of_check (by decide)) (by decide) (by decide)



/-! ## The states of a game: grid and data model -/

theorem squareField_of_shape {n : Int} {f f' : Field}
    (hshape : f'.map List.length = f.map List.length) (h : SquareField n f) :
    SquareField n f' := by
  have hlen : f'.length = f.length := by
    have := congrArg List.length hshape
    simpa using this
  refine ⟨by rw [hlen]; exact h.1, ?_⟩
  intro row hrow
  have hm : row.length ∈ f'.map List.length := List.mem_map.mpr ⟨row, hrow, rfl⟩
  rw [hshape] at hm
  rcases List.mem_map.mp hm with ⟨r, hr, hre⟩
  rw [← hre]
  exact h.2 r hr

theorem squareField_step {s s' : State} {fresh : PlayerState} {x y : Int}
    (h : SquareField s.size s.player.field) (hf : SquareField s.size fresh.field)
    (hs' : handleAction fresh s x y = Except.ok s') :
    s'.size = s.size ∧ SquareField s'.size s'.player.field := by
  cases hp : s.gameState with
  | OVER =>
    rw [handleAction_over hp] at hs'
    cases hs'
    exact ⟨rfl, hf⟩
  | PLAYER_1_TURN =>
    rcases handleAction_ok_cases hp hs' with ⟨c, _, hcase⟩
    rcases hcase with ⟨_, rfl⟩ | ⟨_, _, rfl⟩ | ⟨_, _, _, _, rfl⟩
    · exact ⟨rfl, h⟩
    · exact ⟨rfl, squareField_of_shape (updateCell_shape _ _ _ _) h⟩
    · exact ⟨rfl, squareField_of_shape (updateCell_shape _ _ _ _) h⟩

theorem squareField_run {s0 s : State} (strikes : List Strike)
    (h : SquareField s0.size s0.player.field)
    (hf : ∀ a ∈ strikes, SquareField s0.size a.fresh.field)
    (hrun : run s0 strikes = Except.ok s) :
    s.size = s0.size ∧ SquareField s.size s.player.field := by
  induction strikes generalizing s0 with
  | nil =>
    simp only [run] at hrun
    cases hrun
    exact ⟨rfl, h⟩
  | cons a rest ih =>
    simp only [run] at hrun
    cases hstep : handleAction a.fresh s0 a.x a.y with
    | error e => rw [hstep] at hrun; cases hrun
    | ok next =>
      rw [hstep] at hrun
      rcases squareField_step h (hf a (List.mem_cons_self _ _)) hstep with ⟨h1, h2⟩
      have h3 := ih h2 (fun b hb => by
        rw [h1]
        exact hf b (List.mem_cons_of_mem _ hb)) hrun
      exact ⟨by rw [h3.1, h1], h3.2⟩



/-! ## Hit and miss steps in a game (C3, C4) -/

/-- C3: in every running state of a game, reached by strikes from a layout that
meets the generator's contract (the same for the layouts handed out on
restarts), a strike at an in-range (x,y) whose cell `c` has state `SHIP`
returns a field in which the cell at (x,y) is `c` with state `HIT`, and a ship
list equal to the old one except that the life of `ships[c.ship]` is lowered by
exactly 1. -/
theorem hit_step_in_game (s0 : State) (strikes : List Strike) (s : State)
    (fresh : PlayerState) (x y : Int) (c : Cell)
    (h0 : GeneratorContract s0.player)
    (hf : ∀ b ∈ strikes, GeneratorContract b.fresh)
    (hrun : run s0 strikes = Except.ok s)
    (hp : s.gameState = GameState.PLAYER_1_TURN)
    (hc : cellAt s.player.field x y = some c)
    (hst : c.state = CellState.SHIP) :
    ∃ s' sh, jsGet s.player.ships c.ship = some sh ∧
      handleAction fresh s x y = Except.ok s' ∧
      cellAt s'.player.field x y = some { c with state := CellState.HIT } ∧
      s'.player.ships.length = s.player.ships.length ∧
      jsGet s'.player.ships c.ship =
        some { type := sh.type, size := sh.size, life := sh.life - 1 } ∧
      ∀ j : Int, j ≠ c.ship → jsGet s'.player.ships j = jsGet s.player.ships j := by
  have hs : Scored s.player := scored_run strikes (scored_of_contract h0) hf hrun
  have hown := hs.1 x y c hc
  have hv := (hs.2.1 x y c hc).1 hst
  have hlt : c.ship.toNat < s.player.ships.length := by omega
  have hsh : jsGet s.player.ships c.ship = some (s.player.ships[c.ship.toNat]) :=
    jsGet_eq_some.mpr ⟨hv.1, List.getElem?_eq_getElem hlt⟩
  rcases hit_step fresh s x y c _ hp hc hst hown hsh with ⟨s', h1, h2, h3, h4, h5⟩
  exact ⟨s', _, hsh, h1, h2, h3, h4, h5⟩

/-- C3 on the scenario of the spec: after the strike at (0,0), the strike at
(0,1) hits the second cell of the ship and brings its life from 1 to 0. -/
theorem hit_step_in_game_witness :
    ∃ s' sh, jsGet scenarioHit.player.ships 0 = some sh ∧
      handleAction freshOne scenarioHit 0 1 = Except.ok s' ∧
      cellAt s'.player.field 0 1 = some ⟨0, 1, CellState.HIT, 0⟩ ∧
      s'.player.ships.length = scenarioHit.player.ships.length ∧
      jsGet s'.player.ships 0 =
        some { type := sh.type, size := sh.size, life := sh.life - 1 } ∧
      ∀ j : Int, j ≠ 0 → jsGet s'.player.ships j = jsGet scenarioHit.player.ships j :=
  hit_step_in_game scenario [⟨0, 0, freshOne⟩] scenarioHit freshOne 0 1
    ⟨0, 1, CellState.SHIP, 0⟩
    ⟨ownCoords_of_check (by decide), by decide, by decide, by decide⟩
    (fun b hb => by
      simp only [List.mem_singleton] at hb
      subst hb
      exact ⟨ownCoords_of_check (by decide), by decide, by decide, by decide⟩)
    (by decide) (by decide) (by decide) (by decide)

/-- C4: in every running state of a game, reached by strikes from a layout that
meets the generator's contract (the same for the layouts handed out on
restarts), a strike at an in-range (x,y) whose cell `c` has state `EMPTY`
returns a field in which the cell at (x,y) is `c` with state `MISS`, and the
ship list it was given. -/
theorem miss_step_in_game (s0 : State) (strikes : List Strike) (s : State)
    (fresh : PlayerState) (x y : Int) (c : Cell)
    (h0 : GeneratorContract s0.player)
    (hf : ∀ b ∈ strikes, GeneratorContract b.fresh)
    (hrun : run s0 strikes = Except.ok s)
    (hp : s.gameState = GameState.PLAYER_1_TURN)
    (hc : cellAt s.player.field x y = some c)
    (hst : c.state = CellState.EMPTY) :
    ∃ s', handleAction fresh s x y = Except.ok s' ∧
      cellAt s'.player.field x y = some { c with state := CellState.MISS } ∧
      s'.player.ships = s.player.ships := by
  have hs : Scored s.player := scored_run strikes (scored_of_contract h0) hf hrun
  exact miss_step fresh s x y c hp hc hst (hs.1 x y c hc) ((hs.2.1 x y c hc).2 hst)

/-- C4 on the scenario of the spec: after the strike at (0,0), the strike at
(1,1) misses and leaves the ship with life 1. -/
theorem miss_step_in_game_witness :
    ∃ s', handleAction freshOne scenarioHit 1 1 = Except.ok s' ∧
      cellAt s'.player.field 1 1 = some ⟨1, 1, CellState.MISS, -1⟩ ∧
      s'.player.ships = scenarioHit.player.ships :=
  miss_step_in_game scenario [⟨0, 0, freshOne⟩] scenarioHit freshOne 1 1
    ⟨1, 1, CellState.EMPTY, -1⟩
    ⟨ownCoords_of_check (by decide), by decide, by decide, by decide⟩
    (fun b hb => by
      simp only [List.mem_singleton] at hb
      subst hb
      exact ⟨ownCoords_of_check (by decide), by decide, by decide, by decide⟩)
    (by decide) (by decide) (by decide) (by decide)



/-! ## Strikes outside the grid in a game (C6) -/

/-- C6: in every running state of a game started on a `size × size` grid (the
layouts handed out on restarts being grids of the same size), a strike at (x,y)
with `x` or `y` outside `[0, state.size)` is rejected: `handleAction` fails with
the `TypeError` of the lookup `field[x][y]`, no state is returned, and so no
field cell, no ship life and no game phase is changed. -/
theorem strike_outside_grid_rejected (s0 : State) (strikes : List Strike) (s : State)
    (fresh : PlayerState) (x y : Int)
    (h0 : SquareField s0.size s0.player.field)
    (hf : ∀ a ∈ strikes, SquareField s0.size a.fresh.field)
    (hrun : run s0 strikes = Except.ok s)
    (hp : s.gameState = GameState.PLAYER_1_TURN)
    (hout : ¬ (0 ≤ x ∧ x < s.size ∧ 0 ≤ y ∧ y < s.size)) :
    handleAction fresh s x y = Except.error JsError.typeError ∧
    cellAt s.player.field x y = none ∧
    ∀ s', handleAction fresh s x y ≠ Except.ok s' := by
  have hsq := (squareField_run strikes h0 hf hrun).2
  have herr := strike_outside_grid_raises fresh s x y hp hsq hout
  refine ⟨herr, ?_, ?_⟩
  · cases hcell : cellAt s.player.field x y with
    | none => rfl
    | some c =>
      cases hu : unstruck c with
      | false =>
        rw [handleAction_struck hp fresh hcell hu] at herr
        cases herr
      | true =>
        by_cases hship : c.ship = -1
        · rw [handleAction_noShip hp fresh hcell hu hship] at herr
          cases herr
        · cases hsh : jsGet s.player.ships c.ship with
          | some sh =>
            rw [handleAction_ship hp fresh hcell hu hship hsh] at herr
            cases herr
          | none =>
            exfalso
            apply hout
            rcases cellAt_eq_some.mp hcell with ⟨row, hrow, hc⟩
            rcases jsGet_eq_some.mp hrow with ⟨hx, hrow'⟩
            rcases jsGet_eq_some.mp hc with ⟨hy, hc'⟩
            rcases List.getElem?_eq_some_iff.mp hrow' with ⟨hxl, hxe⟩
            rcases List.getElem?_eq_some_iff.mp hc' with ⟨hyl, _⟩
            have hmem : row ∈ s.player.field := by
              rw [← hxe]
              exact List.getElem_mem hxl
            have h1 := hsq.1
            have h2 := hsq.2 row hmem
            omega
  · intro s' hs'
    rw [herr] at hs'
    cases hs'

/-- C6 on the scenario of the spec: after the strike at (0,0), the strike at
(0,2) on the 2 × 2 grid. -/
theorem strike_outside_grid_rejected_witness :
    handleAction scenario.player scenarioHit 0 2 = Except.error JsError.typeError ∧
    cellAt scenarioHit.player.field 0 2 = none ∧
    ∀ s', handleAction scenario.player scenarioHit 0 2 ≠ Except.ok s' :=
  strike_outside_grid_rejected scenario [⟨0, 0, scenario.player⟩] scenarioHit
    scenario.player 0 2 (by decide)
    (fun a ha => by
      simp only [List.mem_singleton] at ha
      subst ha
      decide)
    (by decide) (by decide) (by decide)



/-! ## Cell transitions and the frame of a strike in a game (C14, C15) -/

/-- C14: in every running state of a game, reached by strikes from a layout
that meets the generator's contract (the same for the layouts handed out on
restarts), for every strike that returns a state, at every position the
returned field has a cell exactly when the field had one, and that cell either
has the state it had or has changed `EMPTY → MISS` or `SHIP → HIT`; a cell in
state `MISS` or `HIT` keeps its state. -/
theorem cell_transitions_in_game (s0 : State) (strikes : List Strike) (s s' : State)
    (fresh : PlayerState) (x y : Int)
    (h0 : GeneratorContract s0.player)
    (hf : ∀ b ∈ strikes, GeneratorContract b.fresh)
    (hrun : run s0 strikes = Except.ok s)
    (hp : s.gameState = GameState.PLAYER_1_TURN)
    (hs' : handleAction fresh s x y = Except.ok s') :
    ∀ x' y' : Int,
      (cellAt s'.player.field x' y' = none ↔ cellAt s.player.field x' y' = none) ∧
      ∀ d, cellAt s.player.field x' y' = some d →
        ∃ d', cellAt s'.player.field x' y' = some d' ∧
          (d'.state = d.state ∨
            (d.state = CellState.EMPTY ∧ d'.state = CellState.MISS) ∨
            (d.state = CellState.SHIP ∧ d'.state = CellState.HIT)) ∧
          ((d.state = CellState.MISS ∨ d.state = CellState.HIT) → d'.state = d.state) := by
  have hs : Scored s.player := scored_run strikes (scored_of_contract h0) hf hrun
  exact cell_transitions fresh s s' x y hp (fun c hc => hs.1 x y c hc) hs'

/-- C14 on the scenario of the spec: after the strikes at (0,0) and (1,1), the
strike at (0,1), seen at the position (0,1). -/
theorem cell_transitions_in_game_witness :
    (cellAt scenarioOver.player.field 0 1 = none ↔
      cellAt scenarioMiss.player.field 0 1 = none) ∧
    ∀ d, cellAt scenarioMiss.player.field 0 1 = some d →
      ∃ d', cellAt scenarioOver.player.field 0 1 = some d' ∧
        (d'.state = d.state ∨
          (d.state = CellState.EMPTY ∧ d'.state = CellState.MISS) ∨
          (d.state = CellState.SHIP ∧ d'.state = CellState.HIT)) ∧
        ((d.state = CellState.MISS ∨ d.state = CellState.HIT) → d'.state = d.state) :=
  cell_transitions_in_game scenario [⟨0, 0, freshOne⟩, ⟨1, 1, freshOne⟩] scenarioMiss
    scenarioOver freshOne 0 1
    ⟨ownCoords_of_check (by decide), by decide, by decide, by decide⟩
    (fun b hb => by
      have hfresh : GeneratorContract freshOne :=
        ⟨ownCoords_of_check (by decide), by decide, by decide, by decide⟩
      simp only [List.mem_cons, List.mem_singleton, List.not_mem_nil, or_false] at hb
      rcases hb with rfl | rfl <;> exact hfresh)
    (by decide) (by decide) (by decide) 0 1

/-- C15: in every running state of a game, reached by strikes from a layout
that meets the generator's contract (the same for the layouts handed out on
restarts), for every in-range strike at (x,y) that returns a state, the
returned field has the same number of rows and the same row lengths as before,
every cell at a position other than (x,y) is unchanged, and the cell at (x,y)
keeps its `x`, `y` and `ship` (only its state is replaced). -/
theorem strike_frame_in_game (s0 : State) (strikes : List Strike) (s s' : State)
    (fresh : PlayerState) (x y : Int) (c : Cell)
    (h0 : GeneratorContract s0.player)
    (hf : ∀ b ∈ strikes, GeneratorContract b.fresh)
    (hrun : run s0 strikes = Except.ok s)
    (hp : s.gameState = GameState.PLAYER_1_TURN)
    (hc : cellAt s.player.field x y = some c)
    (hs' : handleAction fresh s x y = Except.ok s') :
    s'.player.field.length = s.player.field.length ∧
    s'.player.field.map List.length = s.player.field.map List.length ∧
    (∀ x' y' : Int, ¬ (x' = x ∧ y' = y) →
      cellAt s'.player.field x' y' = cellAt s.player.field x' y') ∧
    (∃ d', cellAt s'.player.field x y = some d' ∧
      d'.x = c.x ∧ d'.y = c.y ∧ d'.ship = c.ship) := by
  have hs : Scored s.player := scored_run strikes (scored_of_contract h0) hf hrun
  have hown := hs.1 x y c hc
  rcases strike_frame fresh s s' x y c hp hc hs' with ⟨h1, h2, _, h4, h5⟩
  refine ⟨h1, h2, h4 hown, ?_⟩
  have hcc : cellAt s.player.field c.x c.y = some c := by
    rw [hown.1, hown.2]
    exact hc
  rcases h5 c hcc with ⟨d', hd', hrest⟩
  rw [hown.1, hown.2] at hd'
  exact ⟨d', hd', hrest⟩

/-- C15 on the scenario of the spec: after the strikes at (0,0) and (1,1), the
strike at (0,1). -/
theorem strike_frame_in_game_witness :
    scenarioOver.player.field.length = scenarioMiss.player.field.length ∧
    scenarioOver.player.field.map List.length =
      scenarioMiss.player.field.map List.length ∧
    (∀ x' y' : Int, ¬ (x' = 0 ∧ y' = 1) →
      cellAt scenarioOver.player.field x' y' = cellAt scenarioMiss.player.field x' y') ∧
    (∃ d', cellAt scenarioOver.player.field 0 1 = some d' ∧
      d'.x = 0 ∧ d'.y = 1 ∧ d'.ship = 0) :=
  strike_frame_in_game scenario [⟨0, 0, freshOne⟩, ⟨1, 1, freshOne⟩] scenarioMiss
    scenarioOver freshOne 0 1 ⟨0, 1, CellState.SHIP, 0⟩
    ⟨ownCoords_of_check (by decide), by decide, by decide, by decide⟩
    (fun b hb => by
      have hfresh : GeneratorContract freshOne :=
        ⟨ownCoords_of_check (by decide), by decide, by decide, by decide⟩
      simp only [List.mem_cons, List.mem_singleton, List.not_mem_nil, or_false] at hb
      rcases hb with rfl | rfl <;> exact hfresh)
    (by decide) (by decide) (by decide) (by decide)

end DashBoard
